import Mathlib

/-!
Shallow embedding of the document classification, deduplication and routing
engine of `Scripts/Move_to_OneDrive.py` (the repository's "Router" / "Safe
Mover" / "Duplicate Ledger" core), together with theorems settling the
specification claims about it.

Modelling conventions:
* Strings are `List Char` (`Str`), so that Python's `.lower()`,
  `.replace(" ", "")`, slicing and `in` tests become ordinary list functions.
* Paths are lists of components (`Path`); `os.path.join dir name` is
  `dir ++ [name]`.
* The filesystem is an in-memory list of (directory, filename, content)
  entries; `shutil.move` / `os.rename` are pure transformations of it.
* SHA-256 is modelled as an injective fingerprint, i.e. the content itself
  (`fileHash := id`): the code only ever compares digests for equality.
* Effectful collaborators that can raise (sqlite, `os.getsize`, `shutil.move`,
  `pytesseract`, `convert_from_path`) are driven by explicit fault oracles;
  a Python exception that the code does not catch is `Except.error s`, whose
  payload is the system state at the moment of the raise (Python exceptions
  do not roll back completed filesystem mutations).
* Real-time sleeps are not modelled; `safe_move`'s `time.sleep(wait_secs)`
  calls are logged in a `sleeps` trace so that "fixed delay" is provable.
-/

abbrev Str := List Char

/-- Python `str.lower()` (ASCII view, which is what the OCR text uses). -/
def toLowerStr (s : Str) : Str := s.map Char.toLower

/-- Python `str.replace(" ", "")`: removes space characters only (not other
whitespace such as newlines that OCR output contains). -/
def stripSpaces (s : Str) : Str := s.filter (fun c => !(c == ' '))

/-- Python `str.startswith`. -/
def startsWithB : Str → Str → Bool
  | [], _ => true
  | _ :: _, [] => false
  | a :: as, b :: bs => a == b && startsWithB as bs

/-- Python `needle in haystack` (substring containment). -/
def containsStr (needle : Str) : Str → Bool
  | [] => startsWithB needle []
  | c :: t => startsWithB needle (c :: t) || containsStr needle t

/-- Python `str.endswith`. -/
def endsWithB (suffix s : Str) : Bool := startsWithB suffix.reverse s.reverse

/-- Python `str.strip()` (whitespace characters at both ends). -/
def isSpaceChar (c : Char) : Bool :=
  c == ' ' || c == Char.ofNat 9 || c == Char.ofNat 10 || c == Char.ofNat 13 ||
  c == Char.ofNat 11 || c == Char.ofNat 12

def stripWS (s : Str) : Str :=
  ((s.dropWhile isSpaceChar).reverse.dropWhile isSpaceChar).reverse

/-- Decimal digit character, by cases (kept elementary so that everything
reduces in the kernel). -/
def digitChar (d : Nat) : Char :=
  if d = 0 then '0' else if d = 1 then '1' else if d = 2 then '2'
  else if d = 3 then '3' else if d = 4 then '4' else if d = 5 then '5'
  else if d = 6 then '6' else if d = 7 then '7' else if d = 8 then '8'
  else '9'

def digitVal (c : Char) : Nat :=
  if c = '0' then 0 else if c = '1' then 1 else if c = '2' then 2
  else if c = '3' then 3 else if c = '4' then 4 else if c = '5' then 5
  else if c = '6' then 6 else if c = '7' then 7 else if c = '8' then 8
  else 9

/-- Least-significant-first decimal digits of a positive number; fuelled so
that it reduces by structural recursion. -/
def natDigitsRevGo : Nat → Nat → Str
  | 0, _ => []
  | _ + 1, 0 => []
  | fuel + 1, n + 1 => digitChar ((n + 1) % 10) :: natDigitsRevGo fuel ((n + 1) / 10)

/-- Python's decimal rendering of a natural number (as used by
`f"{base} ({i}){ext}"`). -/
def natRepr (n : Nat) : Str :=
  if n = 0 then ['0'] else (natDigitsRevGo n n).reverse

/-- `os.path.splitext` applied to a bare filename: split at the last dot,
unless every character before that dot is itself a dot (leading-dot files
have no extension). -/
def splitExtName (name : Str) : Str × Str :=
  let revTail := (name.reverse.takeWhile (fun c => !(c == '.'))).length
  if revTail = name.length then (name, [])
  else
    let d := name.length - revTail - 1
    if (name.take d).all (fun c => c == '.') then (name, [])
    else (name.take d, name.drop d)

/-- The candidate filename `f"{base} ({i}){ext}"` tried by
`_unique_with_counter`. -/
def counterCand (base ext : Str) (i : Nat) : Str :=
  base ++ [' ', '('] ++ natRepr i ++ [')'] ++ ext

/-- The search loop of `_unique_with_counter`, fuelled (the Python `while`
terminates because only finitely many names are taken). -/
def uniqueCounterGo (taken : List Str) (base ext : Str) : Nat → Nat → Str
  | i, 0 => counterCand base ext i
  | i, fuel + 1 =>
    let cand := counterCand base ext i
    if cand ∈ taken then uniqueCounterGo taken base ext (i + 1) fuel else cand

/-- `_unique_with_counter(dest)` where `taken` is the set of names already
present in `dest`'s directory (`os.path.exists` on siblings). -/
def uniqueWithCounter (taken : List Str) (name : Str) : Str :=
  if name ∈ taken then
    let pr := splitExtName name
    uniqueCounterGo taken pr.1 pr.2 1 (taken.length + 1)
  else name

/-! ## Duplicate Ledger (`file_history` sqlite table) -/

/-- A row of the `file_history` table created by `_db_init`:
`sha256 TEXT PRIMARY KEY, size INTEGER, first_seen_utc INTEGER,
last_seen_utc INTEGER, last_path TEXT`. The path is kept structured as
(directory, filename). -/
structure LEntry where
  sha256 : Str
  size : Option Int
  firstSeen : Int
  lastSeen : Int
  lastDir : List Str
  lastName : Str
  deriving DecidableEq, Repr

abbrev Ledger := List LEntry

/-- `_db_seen_recently(file_hash, days)`: a row exists for the hash with
`last_seen_utc > now - days` (cutoff `(utcnow - timedelta(days)).timestamp()`). -/
def dbSeenRecently (l : Ledger) (h : Str) (days : Int) (now : Int) : Bool :=
  l.any fun e => e.sha256 == h && decide (now - days * 86400 < e.lastSeen)

/-- `_db_record(path, file_hash)`: the upsert
`INSERT ... ON CONFLICT(sha256) DO UPDATE SET last_seen_utc=excluded.last_seen_utc,
last_path=excluded.last_path, size=COALESCE(excluded.size, size)`.
`sz` is the `os.path.getsize(path)` result (`none` when it raised). -/
def dbRecord (l : Ledger) (h : Str) (sz : Option Int) (now : Int)
    (dir : List Str) (name : Str) : Ledger :=
  if l.any (fun e => e.sha256 == h) then
    l.map fun e =>
      if e.sha256 == h then
        { e with lastSeen := now, lastDir := dir, lastName := name,
                 size := match sz with | some v => some v | none => e.size }
      else e
  else
    l ++ [{ sha256 := h, size := sz, firstSeen := now, lastSeen := now,
            lastDir := dir, lastName := name }]

/-! ## Settle Detector (`_wait_for_settle`) -/

/-- The body of `_wait_for_settle`'s `for _ in range(checks*3)` loop.
`sample k` is the result of the `os.path.getsize` call in round `k`
(`none` models the call raising, which the surrounding `try` turns into
`return False`). `rounds` is the remaining loop iterations; falling off the
end of the loop returns `True`. -/
def waitForSettleGo (sample : Nat → Option Int) (checks : Nat) :
    Nat → Nat → Int → Nat → Bool
  | _, 0, _, _ => true
  | k, rounds + 1, last, stable =>
    match sample k with
    | none => false
    | some size =>
      if size = last then
        if stable + 1 ≥ checks then true
        else waitForSettleGo sample checks (k + 1) rounds size (stable + 1)
      else waitForSettleGo sample checks (k + 1) rounds size 0

/-- `_wait_for_settle(path, checks, delay)`: `last = -1; stable = 0;` then the
loop over `checks * 3` size samples. The 0.8s inter-sample delay is real time
and not part of the state model. -/
def waitForSettle (sample : Nat → Option Int) (checks : Nat) : Bool :=
  waitForSettleGo sample checks 0 (checks * 3) (-1) 0

/-! ## Filesystem model -/

abbrev DirPath := List Str

/-- One regular file: directory (component list), filename, byte content. -/
structure FEntry where
  dir : DirPath
  name : Str
  content : Str
  deriving DecidableEq, Repr

/-- The filesystem as a finite store of regular files; list order is the
`os.listdir` enumeration order. -/
structure FS where
  files : List FEntry
  deriving DecidableEq, Repr

/-- `os.listdir(dir)` restricted to regular files (the router filters with
`os.path.isfile`; the model stores only regular files). -/
def listDirFS (fs : FS) (dir : DirPath) : List Str :=
  (fs.files.filter (fun e => e.dir == dir)).map (fun e => e.name)

/-- `os.path.exists(os.path.join(dir, name))`. -/
def fexists (fs : FS) (dir : DirPath) (name : Str) : Bool :=
  fs.files.any fun e => e.dir == dir && e.name == name

/-- Read a file's bytes. -/
def getContent (fs : FS) (dir : DirPath) (name : Str) : Option Str :=
  (fs.files.find? (fun e => e.dir == dir && e.name == name)).map (·.content)

/-- SHA-256 of a file's content, modelled as an injective fingerprint of the
bytes themselves (`_file_hash` streams the file through `hashlib.sha256`;
the code only compares digests for equality). -/
def fileHash (content : Str) : Str := content

/-- Remove one file. -/
def removeFS (fs : FS) (dir : DirPath) (name : Str) : FS :=
  ⟨fs.files.filter fun e => !(e.dir == dir && e.name == name)⟩

/-- Create a file (append: new directory entries enumerate last). -/
def addFS (fs : FS) (dir : DirPath) (name : Str) (content : Str) : FS :=
  ⟨fs.files ++ [⟨dir, name, content⟩]⟩

/-- `shutil.move` / `os.rename` onto a non-existing target path. -/
def moveFS (fs : FS) (sdir : DirPath) (sname : Str) (ddir : DirPath) (dname : Str) : FS :=
  match getContent fs sdir sname with
  | none => fs
  | some c => addFS (removeFS fs sdir sname) ddir dname c

/-- `os.rename` within a directory, keeping the entry's enumeration slot. -/
def renameFS (fs : FS) (dir : DirPath) (oldName newName : Str) : FS :=
  ⟨fs.files.map fun e =>
    if e.dir == dir && e.name == oldName then { e with name := newName } else e⟩

/-! ## Folder constants (module-level config of `Move_to_OneDrive.py`) -/

def DEST_FOLDER : DirPath :=
  ["C:".data, "Users".data, "Administrator".data,
   "Better Bookkeeping Management".data, "BBKM - Documents".data,
   "BBKM Plan Management".data, "NDIS".data, "ZInvoices for lodgement".data,
   "Invoice Program".data]

def NDIS_STATEMENT_PATH : DirPath :=
  ["C:".data, "Users".data, "Administrator".data,
   "Better Bookkeeping Management".data, "BBKM - Documents".data,
   "BBKM Plan Management".data, "NDIS".data, "ZInvoices for lodgement".data,
   "Invoice Program".data, "NDIS Activity Statement".data]

def SRC_FOLDER : DirPath :=
  ["C:".data, "BBKM_InvoiceSorter".data, "Invoices".data, "Renamed Invoices".data]

def RECEIPTS_FOLDER : DirPath := DEST_FOLDER ++ ["Renamed Receipts".data]

def MANUAL_LODGEMENT_FOLDER : DirPath := DEST_FOLDER ++ ["Manual Lodgement".data]

def NEW_PROVIDER_FOLDER : DirPath := DEST_FOLDER ++ ["New Provider".data]

def UNASSIGNED_PLAN_MANAGER_FOLDER : DirPath :=
  DEST_FOLDER ++ ["Unassigned Plan Manager".data]

def SRC_FOLDER_ATTEMPT : DirPath := DEST_FOLDER ++ ["Attempt Code".data]

def DEST_FOLDER_ATTEMPT : DirPath :=
  ["C:".data, "BBKM_InvoiceSorter".data, "Invoices".data]

def SRC_FOLDER_FAILED : DirPath :=
  ["C:".data, "BBKM_InvoiceSorter".data, "Invoices".data, "Failed".data]

def DEST_FOLDER_FAILED : DirPath := DEST_FOLDER ++ ["Failed to Code".data]

def STA_INVOICES_FOLDER : DirPath := DEST_FOLDER ++ ["STA and Assistance".data]

def STREAMLINE_FOLDER : DirPath := DEST_FOLDER ++ ["Streamline Invoices".data]

def AT_CONSUMABLES_FOLDER : DirPath := DEST_FOLDER ++ ["AT&Consumables".data]

def STREAMLINE_FAILED_FOLDER : DirPath :=
  DEST_FOLDER_FAILED ++ ["Streamline failed to code".data]

def FAILED_MANUAL_FOLDER : DirPath :=
  DEST_FOLDER_FAILED ++ ["Failed Manual Lodgment".data]

def FAILED_AT_FOLDER : DirPath :=
  DEST_FOLDER_FAILED ++ ["Failed AT&Consumables".data]

def COULD_NOT_MOVE_FOLDER : DirPath := DEST_FOLDER_FAILED ++ ["Could not move".data]

/-- `os.path.basename` of a folder constant (`os.path.split(p)[1]`). -/
def basenameP (p : DirPath) : Str := p.getLastD []

/-! ## Regex models (Python `re` over the OCR-normalized text) -/

/-- Python `\w` (ASCII view). -/
def isWordChar (c : Char) : Bool := c.isAlpha || c.isDigit || c == '_'

/-- Python `\b` at offset `i` of `s`: word-ness differs across the position. -/
def isBoundaryAt (s : Str) (i : Nat) : Bool :=
  let left := match i with
    | 0 => false
    | j + 1 => match s.get? j with | some c => isWordChar c | none => false
  let right := match s.get? i with | some c => isWordChar c | none => false
  left != right

/-- The literal `pat` occurs at offset `i` of `s`. -/
def matchesAt (s : Str) (i : Nat) (pat : Str) : Bool :=
  startsWithB pat (s.drop i)

/-- `re.search(r'\bsta\b|\b\dsta\b', content)` from `move_files` (line 423). -/
def staMatch (s : Str) : Bool :=
  (List.range (s.length + 1)).any fun i =>
    (matchesAt s i "sta".data && isBoundaryAt s i && isBoundaryAt s (i + 3)) ||
    ((match s.get? i with | some c => c.isDigit | none => false) &&
      matchesAt s (i + 1) "sta".data && isBoundaryAt s i && isBoundaryAt s (i + 4))

/-- `re.search(r'inc\.\srespite', content)` from `move_files` (line 425):
note the mandatory whitespace character between `inc.` and `respite`, applied
to text whose spaces were already removed. -/
def respiteMatch (s : Str) : Bool :=
  (List.range (s.length + 1)).any fun i =>
    matchesAt s i "inc.".data &&
    (match s.get? (i + 4) with | some c => isSpaceChar c | none => false) &&
    matchesAt s (i + 5) "respite".data

/-- Modelled from the spec's words (claim C7): the STA marker pattern
`\bsta\b` or `\d+sta\b`. A `\d+sta\b` occurrence exists iff a `\dsta\b`
occurrence exists (take the last digit of the run), which is how the second
alternative is rendered here. -/
def specStaMatch (s : Str) : Bool :=
  (List.range (s.length + 1)).any fun i =>
    (matchesAt s i "sta".data && isBoundaryAt s i && isBoundaryAt s (i + 3)) ||
    ((match s.get? i with | some c => c.isDigit | none => false) &&
      matchesAt s (i + 1) "sta".data && isBoundaryAt s (i + 4))

/-- Modelled from the spec's words (claim C7): the respite marker
`inc\. respite` with a literal space. -/
def specRespiteMatch (s : Str) : Bool := containsStr "inc. respite".data s

/-- Modelled from the spec's words (claim C2): "the normalized token ...
(whitespace removed, case-folded)". -/
def specNormalizeWS (s : Str) : Str :=
  (toLowerStr s).filter (fun c => !(isSpaceChar c))

/-- The code's normalization of a recognized page:
`pytesseract.image_to_string(...).lower().replace(" ", "")` (line 419). -/
def normalizePage (s : Str) : Str := stripSpaces (toLowerStr s)

/-! ## Client Registry / Plan Manager resolution -/

/-- An element of `CLIENT_RECORDS` as built by `_build_client_records`. -/
structure ClientRecord where
  code : Str
  codeNormalized : Str
  planManager : Str
  deriving DecidableEq, Repr

/-- `_sanitize_folder_name`: `re.sub(r'[<>:"/\\|?*]', "_", name).strip()`. -/
def sanitizeFolderName (name : Str) : Str :=
  stripWS (name.map fun c =>
    if c == '<' || c == '>' || c == ':' || c == '"' || c == '/' ||
       c == '\\' || c == '|' || c == '?' || c == '*' then '_' else c)

/-- `_plan_manager_root(plan_manager)`. -/
def planManagerRoot (planManager : Str) : DirPath :=
  let label := stripWS planManager
  if label = [] then UNASSIGNED_PLAN_MANAGER_FOLDER
  else
    let safeName := sanitizeFolderName label
    if safeName = [] then UNASSIGNED_PLAN_MANAGER_FOLDER
    else DEST_FOLDER ++ [safeName]

/-- `re.sub(r"[^a-z0-9]", "", base_name)`. -/
def isLowerAlnum (c : Char) : Bool :=
  (decide (97 ≤ c.toNat) && decide (c.toNat ≤ 122)) ||
  (decide (48 ≤ c.toNat) && decide (c.toNat ≤ 57))

/-- The record scan inside `_lookup_plan_manager`. -/
def lookupPlanManagerGo (baseName normalizedBase : Str) :
    List ClientRecord → Str
  | [] => []
  | r :: rest =>
    let codeLower := toLowerStr r.code
    if startsWithB codeLower baseName then r.planManager
    else if startsWithB (codeLower ++ ['_']) baseName ||
            startsWithB (codeLower ++ ['-']) baseName ||
            startsWithB (codeLower ++ [' ']) baseName then r.planManager
    else if !(r.codeNormalized == []) &&
            startsWithB r.codeNormalized normalizedBase then r.planManager
    else lookupPlanManagerGo baseName normalizedBase rest

/-- `_lookup_plan_manager(filename)`: prefix match of the filename stem
against each client code, returning the first match's plan manager
(empty string when none match). -/
def lookupPlanManager (records : List ClientRecord) (filename : Str) : Str :=
  let baseName := toLowerStr (splitExtName filename).1
  let normalizedBase := baseName.filter isLowerAlnum
  lookupPlanManagerGo baseName normalizedBase records

/-! ## Vendor Rule Table and page scanning -/

/-- `vendor_raw.replace(" ", "").lower()`. -/
def vendorKey (v : Str) : Str := toLowerStr (stripSpaces v)

/-- The inner `for vendor_raw, folder_type in VENDORS.items()` scan of one
page: first vendor (table order) whose cleaned alias occurs in the content. -/
def firstVendorIn (vendors : List (Str × Int)) (content : Str) : Option Str :=
  vendors.findSome? fun p =>
    if containsStr (vendorKey p.1) content then some p.1 else none

/-- `VENDORS.get(v)` / `VENDORS[v]`. -/
def vendorFolderType (vendors : List (Str × Int)) (v : Str) : Option Int :=
  (vendors.find? (fun p => p.1 == v)).map (·.2)

/-- Result of the OCR detection loop (lines 414-431):
`found_ndis_statement`, `found_sta`, `found_respite`, `found_vendor`. -/
structure ScanResult where
  ndis : Bool
  sta : Bool
  respite : Bool
  vendor : Option Str
  deriving DecidableEq, Repr

/-- The `for image in images:` loop: per page, normalize the recognized text,
stop as soon as the NDIS statement token is found, otherwise accumulate the
STA/respite flags and (re)assign the vendor from this page if it has one. -/
def scanPagesGo (vendors : List (Str × Int)) :
    Bool → Bool → Option Str → List Str → ScanResult
  | sta, resp, vend, [] => ⟨false, sta, resp, vend⟩
  | sta, resp, vend, pg :: rest =>
    let content := normalizePage pg
    if containsStr "ndisactivitystatement".data content then ⟨true, sta, resp, vend⟩
    else
      let sta' := sta || staMatch content
      let resp' := resp || respiteMatch content
      let vend' := match firstVendorIn vendors content with
        | some v => some v
        | none => vend
      scanPagesGo vendors sta' resp' vend' rest

def scanPages (vendors : List (Str × Int)) (pages : List Str) : ScanResult :=
  scanPagesGo vendors false false none pages

/-- The character class of `re.sub(r'[\s ._-]+', ' ', stem)`. -/
def isSepClassChar (c : Char) : Bool :=
  isSpaceChar c || c == Char.ofNat 160 || c == '.' || c == '_' || c == '-'

/-- Replace each run of separator-class characters by one space
(structurally, tracking whether we are inside a run). -/
def collapseSepsGo : Bool → Str → Str
  | _, [] => []
  | inRun, c :: t =>
    if isSepClassChar c then
      if inRun then collapseSepsGo true t else ' ' :: collapseSepsGo true t
    else c :: collapseSepsGo false t

def collapseSeps (s : Str) : Str := collapseSepsGo false s

/-- The filename-based vendor fallback (lines 463-471): normalize the stem,
squash spaces, then scan the vendor table in order. -/
def filenameVendor (vendors : List (Str × Int)) (filename : Str) : Option Str :=
  let stem := (splitExtName filename).1
  let normName := toLowerStr (stripWS (collapseSeps stem))
  let squashed := stripSpaces normName
  vendors.findSome? fun p =>
    if containsStr (vendorKey p.1) squashed then some p.1 else none

/-! ## Safe Mover (`safe_move`) -/

/-- Result of a `safe_move` call: the filesystem afterwards, the returned
boolean, where the source file now lives (`none` when the source was missing),
how many `shutil.move` calls were made, and the trace of `time.sleep`
durations (in the same abstract units as `waitSecs`). -/
structure MoveOutcome where
  fs : FS
  ok : Bool
  finalAt : Option (DirPath × Str)
  attempts : Nat
  sleeps : List Nat
  deriving DecidableEq, Repr

/-- The final fallback of `safe_move` (lines 314-324): quarantine into
`Failed to Code/Could not move` under a uniquified `unmoved_`-prefixed name;
its own failure (`qFail`) is only logged. -/
def quarantineStep (fs : FS) (sdir : DirPath) (sname : Str) (qFail : Bool)
    (attempts : Nat) (sleeps : List Nat) : MoveOutcome :=
  let qname0 := "unmoved_".data ++ sname
  let qname :=
    if fexists fs COULD_NOT_MOVE_FOLDER qname0 then
      uniqueWithCounter (listDirFS fs COULD_NOT_MOVE_FOLDER) qname0
    else qname0
  if qFail then ⟨fs, false, some (sdir, sname), attempts, sleeps⟩
  else ⟨moveFS fs sdir sname COULD_NOT_MOVE_FOLDER qname, false,
        some (COULD_NOT_MOVE_FOLDER, qname), attempts, sleeps⟩

/-- The `while attempt <= retries` loop of `safe_move`. `failAt k` tells
whether the `k`-th try of `shutil.move` (0-based) raises; `fuel` is
`retries + 1 - attempt`, so the loop is structural. A raise on the last
permitted try goes to quarantine; earlier raises sleep `waitSecs` and retry. -/
def safeMoveGo (sdir : DirPath) (sname : Str) (ddir : DirPath) (dname : Str)
    (retries waitSecs : Nat) (failAt : Nat → Bool) (qFail : Bool) (fs : FS) :
    Nat → Nat → MoveOutcome
  | _, 0 => ⟨fs, false, some (sdir, sname), 0, []⟩
  | attempt, fuel + 1 =>
    if failAt attempt then
      if attempt + 1 > retries then
        quarantineStep fs sdir sname qFail 1 []
      else
        let r := safeMoveGo sdir sname ddir dname retries waitSecs failAt qFail
          fs (attempt + 1) fuel
        { r with attempts := r.attempts + 1, sleeps := waitSecs :: r.sleeps }
    else
      if fexists fs ddir dname then
        let dname2 := uniqueWithCounter (listDirFS fs ddir) dname
        ⟨moveFS fs sdir sname ddir dname2, true, some (ddir, dname2), 1, []⟩
      else
        ⟨moveFS fs sdir sname ddir dname, true, some (ddir, dname), 1, []⟩

/-- `safe_move(src, dest, log, retries, wait_secs)`. The missing-source check
comes first; `os.makedirs(..., exist_ok=True)` is a no-op on the model's
directory-less store. -/
def safeMove (fs : FS) (sdir : DirPath) (sname : Str) (ddir : DirPath)
    (dname : Str) (retries waitSecs : Nat) (failAt : Nat → Bool)
    (qFail : Bool) : MoveOutcome :=
  if !(fexists fs sdir sname) then ⟨fs, false, none, 0, []⟩
  else safeMoveGo sdir sname ddir dname retries waitSecs failAt qFail fs 0 (retries + 1)

/-! ## Router (`move_files`) -/

/-- The mutable state a pass operates on: the filesystem and the ledger. -/
structure Sys where
  fs : FS
  ledger : Ledger
  deriving DecidableEq, Repr

/-- Per-run configuration: the loaded vendor table (CSV order), the client
registry, the text-extraction collaborator (recognized page texts for a given
file content), the current UTC timestamp and the retry delay unit. -/
structure Cfg where
  vendors : List (Str × Int)
  clients : List ClientRecord
  ocr : Str → List Str
  now : Int
  waitSecs : Nat

/-- Fault oracle for the effectful collaborators touched while processing a
single file. `settleSample` feeds `_wait_for_settle`'s size polls; the `Bool`
flags tell whether the corresponding call raises; `moveFailAt` drives the
`shutil.move` tries inside `safe_move`. -/
structure FileFaults where
  settleSample : Nat → Option Int
  hashFail : Bool
  seenFail : Bool
  siblingFail : Bool
  renameFail : Bool
  renderFail : Bool
  ocrFail : Bool
  moveFailAt : Nat → Bool
  quarantineFail : Bool
  recordFail : Bool

/-- A fault oracle under which nothing raises and every size poll returns a
constant, so the file settles at once. -/
def noFaults : FileFaults :=
  ⟨fun _ => some 0, false, false, false, false, false, false,
   fun _ => false, false, false⟩

/-- `_find_same_name_and_hash_in_folder(folder, my_path, my_name, my_hash)`:
first sibling (listing order) with a different path, the same name
case-insensitively, and an identical content hash. -/
def findSameNameHash (fs : FS) (folder : DirPath) (myName myHash : Str) :
    Option Str :=
  (listDirFS fs folder).findSome? fun n =>
    if n = myName then none
    else if !(toLowerStr n == toLowerStr myName) then none
    else match getContent fs folder n with
      | some c => if fileHash c == myHash then some n else none
      | none => none

/-- The strict `double_` policy (lines 359-379): only when the ledger saw the
hash within 90 days AND a same-named same-hash sibling is currently present
is the file renamed in place with the `double_` prefix (uniquified if taken).
`_db_seen_recently` and the sibling scan run outside any `try`, so their
raises propagate (`Except.error`); the `os.rename` raise is caught and the
file keeps its name. -/
def dupStep (srcDir : DirPath) (name : Str) (hashOpt : Option Str) (now : Int)
    (fl : FileFaults) (s : Sys) : Except Sys (Sys × Str) :=
  match hashOpt with
  | none => .ok (s, name)
  | some h =>
    if fl.seenFail then .error s
    else if dbSeenRecently s.ledger h 90 now then
      if fl.siblingFail then .error s
      else match findSameNameHash s.fs srcDir name h with
        | none => .ok (s, name)
        | some _ =>
          if fl.renameFail then .ok (s, name)
          else
            let newName0 := "double_".data ++ name
            let newName :=
              if fexists s.fs srcDir newName0 then
                uniqueWithCounter (listDirFS s.fs srcDir) newName0
              else newName0
            .ok (⟨renameFS s.fs srcDir name newName, s.ledger⟩, newName)
    else .ok (s, name)

/-- `if safe_move(file_path, dest): if file_hash: _db_record(dest, file_hash)`.
The recorded path is the requested destination (`targetDir`, `targetName`),
not the collision-uniquified one `safe_move` may actually have used; the
recorded size is `os.path.getsize` of that requested path. A raise from
`_db_record` is `Except.error` (the surrounding context decides whether it is
caught). -/
def moveAndRecord (cfg : Cfg) (srcDir : DirPath) (name : Str)
    (targetDir : DirPath) (targetName : Str) (hashOpt : Option Str)
    (fl : FileFaults) (s : Sys) : Except Sys Sys :=
  let r := safeMove s.fs srcDir name targetDir targetName 3 cfg.waitSecs
    fl.moveFailAt fl.quarantineFail
  if r.ok then
    match hashOpt with
    | some h =>
      if fl.recordFail then .error ⟨r.fs, s.ledger⟩
      else
        let sz := (getContent r.fs targetDir targetName).map
          (fun c => (c.length : Int))
        .ok ⟨r.fs, dbRecord s.ledger h sz cfg.now targetDir targetName⟩
    | none => .ok ⟨r.fs, s.ledger⟩
  else .ok ⟨r.fs, s.ledger⟩

/-- The body of the big `try` block (lines 392-498): receipts short-circuit,
PDF render check with corrupt quarantining, OCR classification, the
Failed-folder rerouting, the filename vendor fallback and the final
destination choice. An `Except.error` here models a raise inside the `try`;
the caller catches it. -/
def tryBody (cfg : Cfg) (srcDir destDir planBase : DirPath) (name : Str)
    (hashOpt : Option Str) (fl : FileFaults) (s : Sys) : Except Sys Sys :=
  if containsStr "receipt".data (toLowerStr name) &&
     (basenameP destDir == "Invoice Program".data) then
    moveAndRecord cfg srcDir name RECEIPTS_FOLDER name hashOpt fl s
  else if endsWithB ".pdf".data (toLowerStr name) &&
          (srcDir == SRC_FOLDER || srcDir == SRC_FOLDER_FAILED) then
    if fl.renderFail then
      moveAndRecord cfg srcDir name DEST_FOLDER_FAILED
        ("corrupt_".data ++ name) hashOpt fl s
    else if fl.ocrFail then .error s
    else
      let content := match getContent s.fs srcDir name with
        | some c => c
        | none => []
      let scan := scanPages cfg.vendors (cfg.ocr content)
      if scan.ndis then
        moveAndRecord cfg srcDir name NDIS_STATEMENT_PATH name hashOpt fl s
      else if srcDir == SRC_FOLDER_FAILED then
        let target := match scan.vendor with
          | some v =>
            match vendorFolderType cfg.vendors v with
            | some 1 => STREAMLINE_FAILED_FOLDER
            | some 2 => FAILED_MANUAL_FOLDER
            | some 3 => FAILED_AT_FOLDER
            | _ => DEST_FOLDER_FAILED
          | none => DEST_FOLDER_FAILED
        moveAndRecord cfg srcDir name target name hashOpt fl s
      else
        let vend := match scan.vendor with
          | some v => some v
          | none => filenameVendor cfg.vendors name
        let target :=
          if scan.sta || scan.respite then
            planBase ++ [basenameP STA_INVOICES_FOLDER]
          else match vend with
            | some v =>
              match vendorFolderType cfg.vendors v with
              | some 1 => planBase ++ [basenameP STREAMLINE_FOLDER]
              | some 2 => planBase ++ [basenameP MANUAL_LODGEMENT_FOLDER]
              | some 3 => planBase ++ [basenameP AT_CONSUMABLES_FOLDER]
              | _ => planBase ++ [v]
            | none => planBase ++ [basenameP NEW_PROVIDER_FOLDER]
        moveAndRecord cfg srcDir name target name hashOpt fl s
  else .ok s

/-- Processing of a single directory entry (lines 340-501): existence check,
settle gate, fingerprinting (its raise is caught: hash becomes `None`),
duplicate policy, plan-manager resolution, the Attempt-Code short circuit
(whose `_db_record` runs outside the `try`), then the `try`-protected
classification and move; a raise inside the `try` is caught and processing
continues with the next file. -/
def processFile (cfg : Cfg) (srcDir destDir : DirPath) (fl : FileFaults)
    (s : Sys) (name0 : Str) : Except Sys Sys :=
  if !(fexists s.fs srcDir name0) then .ok s
  else if !(waitForSettle fl.settleSample 3) then .ok s
  else
    let hashOpt : Option Str :=
      if fl.hashFail then none
      else match getContent s.fs srcDir name0 with
        | some c => some (fileHash c)
        | none => none
    match dupStep srcDir name0 hashOpt cfg.now fl s with
    | .error sErr => .error sErr
    | .ok (s1, name) =>
      let pm := lookupPlanManager cfg.clients name
      let planBase := planManagerRoot pm
      if srcDir == SRC_FOLDER_ATTEMPT then
        moveAndRecord cfg srcDir name destDir name hashOpt fl s1
      else
        match tryBody cfg srcDir destDir planBase name hashOpt fl s1 with
        | .error sPart => .ok sPart
        | .ok s2 => .ok s2

/-- The `for filename in files:` loop over the snapshot of directory entries;
an uncaught raise aborts the remaining files (`Except.error` with the state
reached so far). -/
def movePassGo (cfg : Cfg) (srcDir destDir : DirPath)
    (faults : Nat → FileFaults) : List Str → Nat → Sys → Except Sys Sys
  | [], _, s => .ok s
  | n :: ns, i, s =>
    match processFile cfg srcDir destDir (faults i) s n with
    | .error sErr => .error sErr
    | .ok s1 => movePassGo cfg srcDir destDir faults ns (i + 1) s1

/-- `move_files(src_folder, dest_folder)`: snapshot the regular files of the
source folder (excluding `desktop.ini` case-insensitively), then process each
in order. -/
def movePass (cfg : Cfg) (srcDir destDir : DirPath) (faults : Nat → FileFaults)
    (s : Sys) : Except Sys Sys :=
  let names := (listDirFS s.fs srcDir).filter fun n =>
    !(toLowerStr n == "desktop.ini".data)
  movePassGo cfg srcDir destDir faults names 0 s

/-! ## Auxiliary definitions used by the verification -/

/-- Value of a least-significant-first digit string. -/
def valRevDigits : Str → Nat
  | [] => 0
  | c :: t => digitVal c + 10 * valRevDigits t

/-- Reading `natRepr` back as a number. -/
def valRepr (s : Str) : Nat := valRevDigits s.reverse

/-- Number of ledger rows carrying a given hash. -/
def countHash (l : Ledger) (h : Str) : Nat :=
  (l.filter (fun e => e.sha256 == h)).length

/-- Ledger states reachable through `_db_record` calls with non-decreasing
clock. `LedgerReach t l` means the ledger `l` can be produced from the empty
table created by `_db_init`, with every recorded timestamp at most `t`. -/
inductive LedgerReach : Int → Ledger → Prop
  | init (t : Int) : LedgerReach t []
  | step (t now : Int) (l : Ledger) (h : Str) (sz : Option Int)
      (dir : List Str) (name : Str) :
      LedgerReach t l → t ≤ now → LedgerReach now (dbRecord l h sz now dir name)
  | tick (t t2 : Int) (l : Ledger) : LedgerReach t l → t ≤ t2 → LedgerReach t2 l

/-! ## Basic lemmas about the string and name utilities -/

theorem digitVal_digitChar : ∀ d, d < 10 → digitVal (digitChar d) = d := by
  decide

theorem valRevDigits_natDigitsRevGo :
    ∀ fuel n, n ≤ fuel → valRevDigits (natDigitsRevGo fuel n) = n := by
  intro fuel
  induction fuel with
  | zero =>
    intro n hn
    interval_cases n
    rfl
  | succ f ih =>
    intro n hn
    match n with
    | 0 => rfl
    | m + 1 =>
      have hdiv : (m + 1) / 10 ≤ f := by
        have h1 : (m + 1) / 10 < m + 1 := Nat.div_lt_self (Nat.succ_pos m) (by decide)
        omega
      simp only [natDigitsRevGo, valRevDigits, ih _ hdiv,
        digitVal_digitChar _ (Nat.mod_lt _ (by decide))]
      omega

theorem valRepr_natRepr (n : Nat) : valRepr (natRepr n) = n := by
  by_cases h : n = 0
  · subst h; rfl
  · simp only [natRepr, if_neg h, valRepr, List.reverse_reverse]
    exact valRevDigits_natDigitsRevGo n n le_rfl

theorem natRepr_injective : Function.Injective natRepr := by
  intro m n h
  have := congrArg valRepr h
  rwa [valRepr_natRepr, valRepr_natRepr] at this

theorem digitChar_ne_paren : ∀ d, digitChar d ≠ ')' := by
  intro d
  unfold digitChar
  repeat' split
  all_goals decide

theorem paren_not_mem_natDigitsRevGo :
    ∀ fuel n, ')' ∉ natDigitsRevGo fuel n := by
  intro fuel
  induction fuel with
  | zero => intro n; simp [natDigitsRevGo]
  | succ f ih =>
    intro n
    match n with
    | 0 => simp [natDigitsRevGo]
    | m + 1 =>
      simp only [natDigitsRevGo, List.mem_cons, not_or]
      exact ⟨fun h => digitChar_ne_paren _ h.symm, ih _⟩

theorem paren_not_mem_natRepr (n : Nat) : ')' ∉ natRepr n := by
  by_cases h : n = 0
  · subst h; decide
  · simp only [natRepr, if_neg h, List.mem_reverse]
    exact paren_not_mem_natDigitsRevGo n n

/-- Cancellation around the closing parenthesis: two parenthesis-free strings
followed by `')' :: t` agree once the concatenations agree. -/
theorem paren_cancel :
    ∀ (xs ys t : Str), ')' ∉ xs → ')' ∉ ys →
      xs ++ ')' :: t = ys ++ ')' :: t → xs = ys := by
  intro xs
  induction xs with
  | nil =>
    intro ys t _ hy h
    cases ys with
    | nil => rfl
    | cons c ys' =>
      simp only [List.nil_append, List.cons_append, List.cons.injEq] at h
      exact absurd (by rw [h.1]; exact List.mem_cons_self c ys') hy
  | cons a xs' ih =>
    intro ys t hx hy h
    cases ys with
    | nil =>
      simp only [List.cons_append, List.nil_append, List.cons.injEq] at h
      exact absurd (by rw [← h.1]; exact List.mem_cons_self a xs') hx
    | cons c ys' =>
      simp only [List.cons_append, List.cons.injEq] at h
      have hx' : ')' ∉ xs' := fun hm => hx (List.mem_cons_of_mem _ hm)
      have hy' : ')' ∉ ys' := fun hm => hy (List.mem_cons_of_mem _ hm)
      exact h.1 ▸ congrArg (List.cons a) (ih ys' t hx' hy' h.2)

theorem counterCand_injective (base ext : Str) :
    Function.Injective (counterCand base ext) := by
  intro i j h
  unfold counterCand at h
  simp only [List.append_assoc, List.cons_append, List.nil_append] at h
  have h1 := List.append_cancel_left h
  simp only [List.cons.injEq, true_and] at h1
  exact natRepr_injective
    (paren_cancel _ _ _ (paren_not_mem_natRepr i) (paren_not_mem_natRepr j) h1)

/-- Pigeonhole: among `taken.length + 1` distinct counter candidates starting
at `i`, at least one is not taken. -/
theorem exists_free_counterCand (taken : List Str) (base ext : Str) (i : Nat) :
    ∃ k, i ≤ k ∧ k < i + (taken.length + 1) ∧ counterCand base ext k ∉ taken := by
  by_contra hcon
  push_neg at hcon
  have hall : ∀ j < taken.length + 1, counterCand base ext (i + j) ∈ taken := by
    intro j hj
    exact hcon (i + j) (Nat.le_add_right _ _) (by omega)
  set l : List Str :=
    (List.range (taken.length + 1)).map (fun j => counterCand base ext (i + j)) with hl
  have hnodup : l.Nodup := by
    refine List.Nodup.map ?_ (List.nodup_range _)
    intro a b hab
    have := counterCand_injective base ext hab
    omega
  have hsub : l ⊆ taken := by
    intro x hx
    rw [hl, List.mem_map] at hx
    obtain ⟨j, hj, rfl⟩ := hx
    exact hall j (List.mem_range.mp hj)
  have hlen : l.length = taken.length + 1 := by
    rw [hl, List.length_map, List.length_range]
  have hcard1 : l.toFinset.card = l.length := List.toFinset_card_of_nodup hnodup
  have hcard2 : l.toFinset ⊆ taken.toFinset := by
    intro x hx
    rw [List.mem_toFinset] at hx ⊢
    exact hsub hx
  have := Finset.card_le_card hcard2
  have := List.toFinset_card_le taken
  omega

theorem uniqueCounterGo_spec (taken : List Str) (base ext : Str) :
    ∀ fuel i, (∃ k, i ≤ k ∧ k < i + fuel ∧ counterCand base ext k ∉ taken) →
      uniqueCounterGo taken base ext i fuel ∉ taken ∧
      ∃ k, i ≤ k ∧ uniqueCounterGo taken base ext i fuel = counterCand base ext k := by
  intro fuel
  induction fuel with
  | zero =>
    intro i ⟨k, hk1, hk2, _⟩
    omega
  | succ f ih =>
    intro i ⟨k, hk1, hk2, hk3⟩
    by_cases hmem : counterCand base ext i ∈ taken
    · have hki : k ≠ i := fun he => hk3 (he ▸ hmem)
      have := ih (i + 1) ⟨k, by omega, by omega, hk3⟩
      simp only [uniqueCounterGo, if_pos hmem]
      exact ⟨this.1, this.2.imp fun k' hk' => ⟨by omega, hk'.2⟩⟩
    · simp only [uniqueCounterGo, if_neg hmem]
      exact ⟨hmem, i, le_rfl, rfl⟩

/-- `_unique_with_counter` returns a name that is not taken. -/
theorem uniqueWithCounter_not_taken (taken : List Str) (name : Str) :
    uniqueWithCounter taken name ∉ taken := by
  unfold uniqueWithCounter
  by_cases hmem : name ∈ taken
  · have hfree := exists_free_counterCand taken (splitExtName name).1 (splitExtName name).2 1
    simp only [if_pos hmem]
    exact (uniqueCounterGo_spec taken (splitExtName name).1 (splitExtName name).2
      (taken.length + 1) 1 hfree).1
  · rw [if_neg hmem]
    exact hmem

/-- `_unique_with_counter` either keeps the name or appends a counter suffix
`' (i)'` (for some `i ≥ 1`) between the splitext base and extension. -/
theorem uniqueWithCounter_shape (taken : List Str) (name : Str) :
    uniqueWithCounter taken name = name ∨
    ∃ i, 1 ≤ i ∧ uniqueWithCounter taken name =
      counterCand (splitExtName name).1 (splitExtName name).2 i := by
  unfold uniqueWithCounter
  by_cases hmem : name ∈ taken
  · have hfree := exists_free_counterCand taken (splitExtName name).1 (splitExtName name).2 1
    simp only [if_pos hmem]
    right
    obtain ⟨_, k, hk1, hk2⟩ := uniqueCounterGo_spec taken (splitExtName name).1
      (splitExtName name).2 (taken.length + 1) 1 hfree
    exact ⟨k, hk1, hk2⟩
  · rw [if_neg hmem]
    left
    rfl

theorem splitExtName_append (name : Str) :
    (splitExtName name).1 ++ (splitExtName name).2 = name := by
  unfold splitExtName
  by_cases h1 : (name.reverse.takeWhile (fun c => !(c == '.'))).length = name.length
  · simp [h1]
  · by_cases h2 : ((name.take
        (name.length - (name.reverse.takeWhile (fun c => !(c == '.'))).length - 1)).all
        (fun c => c == '.')) = true
    · simp [h1, h2]
    · simp [h1, h2, List.take_append_drop]

theorem natRepr_ne_nil (n : Nat) : natRepr n ≠ [] := by
  by_cases h : n = 0
  · subst h; decide
  · intro hc
    have := valRepr_natRepr n
    rw [hc] at this
    exact h (by simpa [valRepr, valRevDigits] using this.symm)

theorem counterCand_length (base ext : Str) (i : Nat) :
    (counterCand base ext i).length =
      base.length + ext.length + 3 + (natRepr i).length := by
  simp [counterCand]
  omega

/-- The uniquified name is never shorter than the original. -/
theorem uniqueWithCounter_length_ge (taken : List Str) (name : Str) :
    name.length ≤ (uniqueWithCounter taken name).length := by
  rcases uniqueWithCounter_shape taken name with h | ⟨i, _, h⟩
  · rw [h]
  · rw [h, counterCand_length]
    have : (splitExtName name).1.length + (splitExtName name).2.length = name.length := by
      have := congrArg List.length (splitExtName_append name)
      simpa using this
    omega

/-! ## Filesystem kit lemmas -/

theorem find?_filter_of_imp {α : Type} (l : List α) (p q : α → Bool)
    (h : ∀ a, q a = true → p a = true) :
    (l.filter p).find? q = l.find? q := by
  induction l with
  | nil => rfl
  | cons a t ih =>
    rw [List.filter_cons]
    by_cases hq : q a = true
    · rw [if_pos (h a hq), List.find?_cons_of_pos _ hq, List.find?_cons_of_pos _ hq]
    · rw [List.find?_cons_of_neg _ hq]
      by_cases hp : p a = true
      · rw [if_pos hp, List.find?_cons_of_neg _ hq]
        exact ih
      · rw [if_neg hp]
        exact ih

theorem any_filter_of_imp {α : Type} (l : List α) (p q : α → Bool)
    (h : ∀ a, q a = true → p a = true) :
    (l.filter p).any q = l.any q := by
  induction l with
  | nil => rfl
  | cons a t ih =>
    rw [List.filter_cons, List.any_cons]
    by_cases hq : q a = true
    · rw [if_pos (h a hq), List.any_cons, hq]
      simp
    · rw [Bool.not_eq_true] at hq
      rw [hq, Bool.false_or]
      by_cases hp : p a = true
      · rw [if_pos hp, List.any_cons, hq, Bool.false_or]
        exact ih
      · rw [if_neg hp]
        exact ih

theorem entryKey_imp (d1 d2 : DirPath) (n1 n2 : Str) (hne : ¬(d1 = d2 ∧ n1 = n2))
    (e : FEntry) (hq : (e.dir == d2 && e.name == n2) = true) :
    (!(e.dir == d1 && e.name == n1)) = true := by
  simp only [Bool.and_eq_true, beq_iff_eq] at hq
  simp only [Bool.not_eq_true', Bool.and_eq_false_iff, beq_eq_false_iff_ne, ne_eq]
  by_contra hcon
  push_neg at hcon
  exact hne ⟨(hcon.1.symm.trans hq.1 : d1 = d2), (hcon.2.symm.trans hq.2 : n1 = n2)⟩

theorem getContent_removeFS_other (fs : FS) (d1 d2 : DirPath) (n1 n2 : Str)
    (h : ¬(d1 = d2 ∧ n1 = n2)) :
    getContent (removeFS fs d1 n1) d2 n2 = getContent fs d2 n2 := by
  unfold getContent removeFS
  rw [find?_filter_of_imp _ _ _ (entryKey_imp d1 d2 n1 n2 h)]

theorem fexists_removeFS_other (fs : FS) (d1 d2 : DirPath) (n1 n2 : Str)
    (h : ¬(d1 = d2 ∧ n1 = n2)) :
    fexists (removeFS fs d1 n1) d2 n2 = fexists fs d2 n2 := by
  unfold fexists removeFS
  rw [any_filter_of_imp _ _ _ (entryKey_imp d1 d2 n1 n2 h)]

theorem fexists_removeFS_self (fs : FS) (d : DirPath) (n : Str) :
    fexists (removeFS fs d n) d n = false := by
  unfold fexists removeFS
  rw [List.any_eq_false]
  intro e he
  rw [List.mem_filter] at he
  have h2 := he.2
  rw [Bool.not_eq_true'] at h2
  simp [h2]

theorem getContent_addFS_self (fs : FS) (d : DirPath) (n : Str) (c : Str)
    (h : fexists fs d n = false) :
    getContent (addFS fs d n c) d n = some c := by
  unfold getContent addFS
  rw [List.find?_append]
  have h1 : fs.files.find? (fun e => e.dir == d && e.name == n) = none := by
    rw [List.find?_eq_none]
    intro e he
    rw [fexists, List.any_eq_false] at h
    exact h e he
  rw [h1]
  simp

theorem getContent_addFS_other (fs : FS) (d1 d2 : DirPath) (n1 n2 : Str) (c : Str)
    (h : ¬(d1 = d2 ∧ n1 = n2)) :
    getContent (addFS fs d1 n1 c) d2 n2 = getContent fs d2 n2 := by
  unfold getContent addFS
  rw [List.find?_append]
  have h1 : List.find? (fun e => e.dir == d2 && e.name == n2)
      [(⟨d1, n1, c⟩ : FEntry)] = none := by
    rw [List.find?_eq_none]
    intro e he
    simp only [List.mem_singleton] at he
    subst he
    simp only [Bool.and_eq_true, beq_iff_eq, not_and]
    intro hd hn
    exact h ⟨hd, hn⟩
  rw [h1]
  cases fs.files.find? (fun e => e.dir == d2 && e.name == n2) <;> rfl

theorem fexists_addFS_self (fs : FS) (d : DirPath) (n : Str) (c : Str) :
    fexists (addFS fs d n c) d n = true := by
  unfold fexists addFS
  rw [List.any_append]
  simp

theorem fexists_addFS_other (fs : FS) (d1 d2 : DirPath) (n1 n2 : Str) (c : Str)
    (h : ¬(d1 = d2 ∧ n1 = n2)) :
    fexists (addFS fs d1 n1 c) d2 n2 = fexists fs d2 n2 := by
  unfold fexists addFS
  rw [List.any_append]
  have h1 : List.any [(⟨d1, n1, c⟩ : FEntry)]
      (fun e => e.dir == d2 && e.name == n2) = false := by
    simp only [List.any_cons, List.any_nil, Bool.or_false, Bool.and_eq_true,
      beq_iff_eq, Bool.and_eq_false_iff, beq_eq_false_iff_ne, ne_eq]
    by_contra hcon
    push_neg at hcon
    exact h ⟨hcon.1, hcon.2⟩
  rw [h1, Bool.or_false]

theorem getContent_isSome_of_fexists (fs : FS) (d : DirPath) (n : Str)
    (h : fexists fs d n = true) : ∃ c, getContent fs d n = some c := by
  unfold fexists at h
  rw [List.any_eq_true] at h
  obtain ⟨e, he, hp⟩ := h
  unfold getContent
  have hs : (fs.files.find? (fun e => e.dir == d && e.name == n)).isSome = true :=
    List.find?_isSome.mpr ⟨e, he, hp⟩
  cases hfind : fs.files.find? (fun e => e.dir == d && e.name == n) with
  | none => rw [hfind] at hs; simp at hs
  | some e2 => exact ⟨e2.content, rfl⟩

theorem fexists_iff_mem_listDir (fs : FS) (d : DirPath) (n : Str) :
    fexists fs d n = true ↔ n ∈ listDirFS fs d := by
  unfold fexists listDirFS
  rw [List.any_eq_true]
  constructor
  · rintro ⟨e, he, hp⟩
    simp only [Bool.and_eq_true, beq_iff_eq] at hp
    rw [List.mem_map]
    exact ⟨e, List.mem_filter.mpr ⟨he, by simp [hp.1]⟩, hp.2⟩
  · intro hm
    rw [List.mem_map] at hm
    obtain ⟨e, he, hn⟩ := hm
    rw [List.mem_filter] at he
    refine ⟨e, he.1, ?_⟩
    simp only [Bool.and_eq_true, beq_iff_eq]
    exact ⟨by simpa using he.2, hn⟩

/-! ## Duplicate Ledger lemmas -/

theorem countHash_eq_zero_iff (l : Ledger) (h : Str) :
    countHash l h = 0 ↔ l.any (fun e => e.sha256 == h) = false := by
  unfold countHash
  rw [List.length_eq_zero, List.filter_eq_nil_iff, List.any_eq_false]

/-- Upsert, absent case: a fresh hash appends exactly one new row with
`first_seen = last_seen = now`. -/
theorem dbRecord_absent (l : Ledger) (h : Str) (sz : Option Int) (now : Int)
    (dir : List Str) (name : Str)
    (habs : l.any (fun e => e.sha256 == h) = false) :
    dbRecord l h sz now dir name =
      l ++ [{ sha256 := h, size := sz, firstSeen := now, lastSeen := now,
              lastDir := dir, lastName := name }] := by
  unfold dbRecord
  rw [habs]
  rfl

/-- Upsert, present case: rows are updated in place — `last_seen` and the
path move to `now`/the new path, `first_seen` and the hash are untouched
(`size` only if the new size is non-null). -/
theorem dbRecord_present (l : Ledger) (h : Str) (sz : Option Int) (now : Int)
    (dir : List Str) (name : Str)
    (hpres : l.any (fun e => e.sha256 == h) = true) :
    dbRecord l h sz now dir name = l.map fun e =>
      if e.sha256 == h then
        { e with lastSeen := now, lastDir := dir, lastName := name,
                 size := match sz with | some v => some v | none => e.size }
      else e := by
  unfold dbRecord
  rw [hpres]
  rfl

theorem countHash_dbRecord_self_absent (l : Ledger) (h : Str) (sz : Option Int)
    (now : Int) (dir : List Str) (name : Str)
    (habs : countHash l h = 0) :
    countHash (dbRecord l h sz now dir name) h = 1 := by
  rw [dbRecord_absent l h sz now dir name ((countHash_eq_zero_iff l h).mp habs)]
  unfold countHash
  rw [List.filter_append, List.length_append]
  have h0 : (List.filter (fun e => e.sha256 == h) l).length = 0 := habs
  rw [h0]
  simp

theorem countHash_dbRecord_present (l : Ledger) (h h2 : Str) (sz : Option Int)
    (now : Int) (dir : List Str) (name : Str)
    (hpres : l.any (fun e => e.sha256 == h) = true) :
    countHash (dbRecord l h sz now dir name) h2 = countHash l h2 := by
  rw [dbRecord_present l h sz now dir name hpres]
  unfold countHash
  rw [List.filter_map]
  rw [List.length_map]
  congr 1
  apply List.filter_congr
  intro e _
  by_cases he : e.sha256 == h
  · simp [Function.comp, he]
  · simp [Function.comp, he]

/-- Recording a hash makes it seen-recently at the same clock (the dedup
window is positive). -/
theorem dbSeenRecently_dbRecord_self (l : Ledger) (h : Str) (sz : Option Int)
    (now : Int) (dir : List Str) (name : Str) (days : Int)
    (hpos : 0 < days * 86400) :
    dbSeenRecently (dbRecord l h sz now dir name) h days now = true := by
  unfold dbSeenRecently
  rw [List.any_eq_true]
  by_cases hpres : l.any (fun e => e.sha256 == h) = true
  · rw [dbRecord_present l h sz now dir name hpres]
    rw [List.any_eq_true] at hpres
    obtain ⟨e, he, hsha⟩ := hpres
    refine ⟨_, List.mem_map_of_mem _ he, ?_⟩
    simp only [hsha, if_true, Bool.and_eq_true, beq_iff_eq, decide_eq_true_eq]
    refine ⟨?_, ?_⟩ <;> first | exact beq_iff_eq.mp hsha | trivial | omega
  · rw [Bool.not_eq_true] at hpres
    rw [dbRecord_absent l h sz now dir name hpres]
    refine ⟨_, List.mem_append_right _ (List.mem_singleton_self _), ?_⟩
    simp only [Bool.and_eq_true, beq_iff_eq, decide_eq_true_eq]
    refine ⟨?_, ?_⟩ <;> first | rfl | trivial | omega

/-- Every ledger state reachable through `_db_record` satisfies the schema
invariant: the hash is a unique key (at most one row per hash) and
`last_seen ≥ first_seen` for every row, with all timestamps bounded by the
clock. -/
theorem ledgerReach_invariant (t : Int) (l : Ledger) (hr : LedgerReach t l) :
    (∀ h, countHash l h ≤ 1) ∧
      ∀ e ∈ l, e.firstSeen ≤ e.lastSeen ∧ e.lastSeen ≤ t := by
  induction hr with
  | init t => exact ⟨fun h => by simp [countHash], fun e he => absurd he (by simp)⟩
  | step t now l h sz dir name hrl hle ih =>
    constructor
    · intro h2
      by_cases hpres : l.any (fun e => e.sha256 == h) = true
      · rw [countHash_dbRecord_present l h h2 sz now dir name hpres]
        exact ih.1 h2
      · rw [Bool.not_eq_true] at hpres
        rw [dbRecord_absent l h sz now dir name hpres]
        unfold countHash
        rw [List.filter_append, List.length_append]
        by_cases hh : h2 = h
        · subst hh
          have h0 : (List.filter (fun e => e.sha256 == h2) l).length = 0 :=
            (countHash_eq_zero_iff l h2).mpr hpres
          rw [h0]
          simp only [Nat.zero_add]
          exact le_trans (List.length_filter_le _ _) (by simp)
        · have h1 : (List.filter (fun e => e.sha256 == h2)
              [({ sha256 := h, size := sz, firstSeen := now, lastSeen := now,
                  lastDir := dir, lastName := name } : LEntry)]).length = 0 := by
            simp only [List.filter_cons, List.filter_nil]
            rw [if_neg (by simp [beq_iff_eq]; exact fun hc => hh hc.symm)]
            rfl
          rw [h1]
          simpa using ih.1 h2
    · intro e he
      by_cases hpres : l.any (fun e => e.sha256 == h) = true
      · rw [dbRecord_present l h sz now dir name hpres] at he
        rw [List.mem_map] at he
        obtain ⟨e0, he0, rfl⟩ := he
        have hb := ih.2 e0 he0
        by_cases hsha : (e0.sha256 == h) = true
        · simp only [hsha, if_true]
          exact ⟨by simpa using le_trans hb.1 (le_trans hb.2 hle), by simp⟩
        · rw [Bool.not_eq_true] at hsha
          simp only [hsha, Bool.false_eq_true, if_false]
          exact ⟨hb.1, le_trans hb.2 hle⟩
      · rw [Bool.not_eq_true] at hpres
        rw [dbRecord_absent l h sz now dir name hpres] at he
        rw [List.mem_append] at he
        rcases he with he | he
        · have hb := ih.2 e he
          exact ⟨hb.1, le_trans hb.2 hle⟩
        · rw [List.mem_singleton] at he
          subst he
          exact ⟨le_refl _, le_refl _⟩
  | tick t t2 l hrl hle ih =>
    exact ⟨ih.1, fun e he => ⟨(ih.2 e he).1, le_trans (ih.2 e he).2 hle⟩⟩

/-! ## Settle Detector lemmas -/

/-- If no size poll raises in the window, `_wait_for_settle` returns true —
by stability or, notably, by exhausting the bounded rounds. -/
theorem waitForSettleGo_true_of_no_err (sample : Nat → Option Int) (checks : Nat) :
    ∀ rounds k last stable, (∀ j, k ≤ j → j < k + rounds → sample j ≠ none) →
      waitForSettleGo sample checks k rounds last stable = true := by
  intro rounds
  induction rounds with
  | zero => intro k last stable _; rfl
  | succ r ih =>
    intro k last stable hno
    unfold waitForSettleGo
    cases hs : sample k with
    | none => exact absurd hs (hno k le_rfl (by omega))
    | some size =>
      dsimp only
      by_cases heq : size = last
      · rw [if_pos heq]
        by_cases hst : stable + 1 ≥ checks
        · rw [if_pos hst]
        · rw [if_neg hst]
          exact ih (k + 1) size (stable + 1) fun j hj1 hj2 => hno j (by omega) (by omega)
      · rw [if_neg heq]
        exact ih (k + 1) size 0 fun j hj1 hj2 => hno j (by omega) (by omega)

/-- The only way `_wait_for_settle` returns false is a raising size poll. -/
theorem waitForSettleGo_false_err (sample : Nat → Option Int) (checks : Nat) :
    ∀ rounds k last stable,
      waitForSettleGo sample checks k rounds last stable = false →
      ∃ j, k ≤ j ∧ j < k + rounds ∧ sample j = none := by
  intro rounds
  induction rounds with
  | zero => intro k last stable hcon; exact absurd hcon (by simp [waitForSettleGo])
  | succ r ih =>
    intro k last stable hres
    unfold waitForSettleGo at hres
    cases hs : sample k with
    | none => exact ⟨k, le_rfl, by omega, hs⟩
    | some size =>
      rw [hs] at hres
      dsimp only at hres
      by_cases heq : size = last
      · rw [if_pos heq] at hres
        by_cases hst : stable + 1 ≥ checks
        · rw [if_pos hst] at hres
          exact absurd hres (by simp)
        · rw [if_neg hst] at hres
          obtain ⟨j, hj1, hj2, hj3⟩ := ih (k + 1) size (stable + 1) hres
          exact ⟨j, by omega, by omega, hj3⟩
      · rw [if_neg heq] at hres
        obtain ⟨j, hj1, hj2, hj3⟩ := ih (k + 1) size 0 hres
        exact ⟨j, by omega, by omega, hj3⟩

/-! ## Safe Mover lemmas -/

theorem quarantineStep_ok_false (fs : FS) (sdir : DirPath) (sname : Str)
    (qFail : Bool) (attempts : Nat) (sleeps : List Nat) :
    (quarantineStep fs sdir sname qFail attempts sleeps).ok = false := by
  unfold quarantineStep
  split <;> rfl

/-- When every `shutil.move` try raises, the retry loop performs exactly
`fuel` tries separated by `fuel - 1` fixed-length sleeps and falls back to
quarantine. -/
theorem safeMoveGo_all_fail (sdir : DirPath) (sname : Str) (ddir : DirPath)
    (dname : Str) (retries waitSecs : Nat) (failAt : Nat → Bool) (qFail : Bool)
    (fs : FS) (hfail : ∀ k, failAt k = true) :
    ∀ m attempt, (m + 1) + attempt = retries + 1 →
      safeMoveGo sdir sname ddir dname retries waitSecs failAt qFail fs
          attempt (m + 1) =
        quarantineStep fs sdir sname qFail (m + 1) (List.replicate m waitSecs) := by
  intro m
  induction m with
  | zero =>
    intro attempt hsum
    unfold safeMoveGo
    rw [if_pos (hfail attempt), if_pos (by omega)]
    rfl
  | succ m ih =>
    intro attempt hsum
    unfold safeMoveGo
    rw [if_pos (hfail attempt), if_neg (by omega)]
    rw [ih (attempt + 1) (by omega)]
    unfold quarantineStep
    by_cases hq : qFail = true
    · simp only [hq, if_true]
      rw [List.replicate_succ]
    · simp only [hq, Bool.false_eq_true, if_false]
      rw [List.replicate_succ]

/-- `safe_move` under total destination failure: with the source present it
makes `retries + 1` move tries, sleeps the fixed delay `retries` times, and
quarantines. -/
theorem safeMove_all_fail (fs : FS) (sdir : DirPath) (sname : Str)
    (ddir : DirPath) (dname : Str) (retries waitSecs : Nat)
    (failAt : Nat → Bool) (qFail : Bool)
    (hsrc : fexists fs sdir sname = true) (hfail : ∀ k, failAt k = true) :
    safeMove fs sdir sname ddir dname retries waitSecs failAt qFail =
      quarantineStep fs sdir sname qFail (retries + 1)
        (List.replicate retries waitSecs) := by
  unfold safeMove
  rw [hsrc]
  simp only [Bool.not_true, Bool.false_eq_true, if_false]
  exact safeMoveGo_all_fail sdir sname ddir dname retries waitSecs failAt qFail
    fs hfail retries 0 (by omega)

/-- If the retry loop reports success, the filesystem effect and the final
location are those of the (unchanged-state) success branch: the destination
name, uniquified iff the destination path already existed. -/
theorem safeMoveGo_ok_spec (sdir : DirPath) (sname : Str) (ddir : DirPath)
    (dname : Str) (retries waitSecs : Nat) (failAt : Nat → Bool) (qFail : Bool)
    (fs : FS) :
    ∀ fuel attempt,
      (safeMoveGo sdir sname ddir dname retries waitSecs failAt qFail fs
        attempt fuel).ok = true →
      safeMoveGo sdir sname ddir dname retries waitSecs failAt qFail fs
          attempt fuel =
        { fs :=
            if fexists fs ddir dname then
              moveFS fs sdir sname ddir (uniqueWithCounter (listDirFS fs ddir) dname)
            else moveFS fs sdir sname ddir dname,
          ok := true,
          finalAt := some (ddir,
            if fexists fs ddir dname then
              uniqueWithCounter (listDirFS fs ddir) dname
            else dname),
          attempts := (safeMoveGo sdir sname ddir dname retries waitSecs failAt
            qFail fs attempt fuel).attempts,
          sleeps := (safeMoveGo sdir sname ddir dname retries waitSecs failAt
            qFail fs attempt fuel).sleeps } := by
  intro fuel
  induction fuel with
  | zero =>
    intro attempt hok
    exact absurd hok (by simp [safeMoveGo])
  | succ f ih =>
    intro attempt hok
    unfold safeMoveGo at hok ⊢
    by_cases hfa : failAt attempt = true
    · rw [if_pos hfa] at hok ⊢
      by_cases hlast : attempt + 1 > retries
      · rw [if_pos hlast] at hok
        exact absurd hok (by rw [quarantineStep_ok_false]; simp)
      · rw [if_neg hlast] at hok ⊢
        have hok2 : (safeMoveGo sdir sname ddir dname retries waitSecs failAt
            qFail fs (attempt + 1) f).ok = true := hok
        have := ih (attempt + 1) hok2
        rw [this]
    · rw [if_neg hfa] at hok ⊢
      by_cases hex : fexists fs ddir dname = true
      · rw [if_pos hex] at hok ⊢
        rw [if_pos hex, if_pos hex]
      · rw [if_neg hex] at hok ⊢
        rw [if_neg hex, if_neg hex]

/-! ## Claim theorems -/

/-- Claim C8: `Record(hash, path)` on the Duplicate Ledger inserts a new
entry when no entry exists for the hash, and otherwise updates last-seen to
now and last-path while leaving first-seen (and the hash) untouched; every
ledger state reachable through records with a non-decreasing clock satisfies
the invariant that each hash appears at most once and last-seen ≥ first-seen
for every entry. -/
theorem claim_C8_ledger_upsert (l : Ledger) (h : Str) (sz : Option Int)
    (now t : Int) (dir : List Str) (name : Str) :
    (l.any (fun e => e.sha256 == h) = false →
      dbRecord l h sz now dir name =
        l ++ [{ sha256 := h, size := sz, firstSeen := now, lastSeen := now,
                lastDir := dir, lastName := name }]) ∧
    (l.any (fun e => e.sha256 == h) = true →
      dbRecord l h sz now dir name = l.map fun e =>
        if e.sha256 == h then
          { e with lastSeen := now, lastDir := dir, lastName := name,
                   size := match sz with | some v => some v | none => e.size }
        else e) ∧
    (LedgerReach t l →
      (∀ h2, countHash l h2 ≤ 1) ∧
        ∀ e ∈ l, e.firstSeen ≤ e.lastSeen ∧ e.lastSeen ≤ t) := by
  refine ⟨fun habs => dbRecord_absent l h sz now dir name habs,
    fun hpres => dbRecord_present l h sz now dir name hpres,
    fun hr => ledgerReach_invariant t l hr⟩

theorem claim_C8_witness :
    dbRecord [] "a".data none 5 [] [] = [LEntry.mk "a".data none 5 5 [] []] ∧
    (∀ h2, countHash [LEntry.mk "a".data none 5 5 [] []] h2 ≤ 1) := by
  have hreach : LedgerReach 5 [LEntry.mk "a".data none 5 5 [] []] := by
    have hstep := LedgerReach.step 5 5 [] "a".data none [] []
      (LedgerReach.init 5) le_rfl
    have heq : dbRecord [] "a".data none 5 [] [] =
        [LEntry.mk "a".data none 5 5 [] []] := rfl
    rwa [heq] at hstep
  exact ⟨(claim_C8_ledger_upsert [] "a".data none 5 5 [] []).1 rfl,
    fun h2 => ((claim_C8_ledger_upsert [LEntry.mk "a".data none 5 5 [] []]
      "a".data none 5 5 [] []).2.2 hreach).1 h2⟩

/-- Whenever the loop's next size read raises, `_wait_for_settle` returns
false immediately: the `except` clause fires before any further polling. -/
theorem waitForSettleGo_false_of_err_at (sample : Nat → Option Int)
    (checks : Nat) (k rounds : Nat) (last : Int) (stable : Nat)
    (herr : sample k = none) :
    waitForSettleGo sample checks k (rounds + 1) last stable = false := by
  unfold waitForSettleGo
  rw [herr]

/-- Claim C6 (corrected): `_wait_for_settle` can also return true when the
bounded polling rounds (`checks * 3`) are exhausted without ever observing
the size unchanged across the required consecutive samples: nine pairwise
distinct sizes still yield `true`. -/
theorem claim_C6_counterexample :
    (∀ i j : Nat, i < 9 → j < 9 → i ≠ j →
      (fun k => some (k : Int)) i ≠ (fun k => some (k : Int)) j) ∧
    waitForSettle (fun k => some (k : Int)) 3 = true := by
  constructor
  · intro i j _ _ hne hc
    exact hne (by simpa using hc)
  · rfl

/-- Claim C6 (amended): `IsSettled` returns true when the byte size is
observed unchanged across the required consecutive samples within the
bounded rounds, or when the bounded rounds elapse without an I/O error; it
returns false exactly when a size read raises an I/O error before success —
whenever the polling loop's next read raises, the function returns false at
once (in particular when the very first read raises, e.g. the file
vanished), and a false result always points to a raising read — and in the
error case the caller skips the file for this pass: `processFile` leaves
the state unchanged and the pass moves on. -/
theorem claim_C6_settle (sample : Nat → Option Int) (checks : Nat) :
    ((∀ j, j < checks * 3 → sample j ≠ none) →
      waitForSettle sample checks = true) ∧
    (waitForSettle sample checks = false →
      ∃ j, j < checks * 3 ∧ sample j = none) ∧
    (∀ k rounds last stable, sample k = none →
      waitForSettleGo sample checks k (rounds + 1) last stable = false) ∧
    (0 < checks → sample 0 = none → waitForSettle sample checks = false) ∧
    (∀ cfg srcDir destDir fl s n, fl.settleSample = sample → checks = 3 →
      waitForSettle sample 3 = false →
      processFile cfg srcDir destDir fl s n = .ok s) := by
  refine ⟨?_, ?_, ?_, ?_, ?_⟩
  · intro hno
    exact waitForSettleGo_true_of_no_err sample checks (checks * 3) 0 (-1) 0
      fun j hj1 hj2 => hno j (by omega)
  · intro hfalse
    obtain ⟨j, _, hj2, hj3⟩ :=
      waitForSettleGo_false_err sample checks (checks * 3) 0 (-1) 0 hfalse
    exact ⟨j, by omega, hj3⟩
  · intro k rounds last stable herr
    exact waitForSettleGo_false_of_err_at sample checks k rounds last stable
      herr
  · intro hpos herr
    unfold waitForSettle
    have hr : checks * 3 = (checks * 3 - 1) + 1 := by omega
    rw [hr]
    exact waitForSettleGo_false_of_err_at sample checks 0 (checks * 3 - 1)
      (-1) 0 herr
  · intro cfg srcDir destDir fl s n hfl _ hfalse
    unfold processFile
    by_cases hex : fexists s.fs srcDir n = true
    · rw [hex]
      simp only [Bool.not_true, Bool.false_eq_true, if_false]
      rw [hfl, hfalse]
      rfl
    · rw [Bool.not_eq_true] at hex
      rw [hex]
      rfl

theorem claim_C6_witness :
    waitForSettle (fun _ => some 7) 3 = true ∧
    waitForSettle (fun _ => (none : Option Int)) 3 = false ∧
    (∃ j, j < 9 ∧ (fun _ => (none : Option Int)) j = none) ∧
    processFile (Cfg.mk [] [] (fun _ => []) 1000000 2) SRC_FOLDER DEST_FOLDER
        { noFaults with settleSample := fun _ => none }
        ⟨⟨[⟨SRC_FOLDER, "a.pdf".data, "x".data⟩]⟩, []⟩ "a.pdf".data =
      .ok ⟨⟨[⟨SRC_FOLDER, "a.pdf".data, "x".data⟩]⟩, []⟩ := by
  have hfalse : waitForSettle (fun _ => (none : Option Int)) 3 = false :=
    (claim_C6_settle (fun _ => (none : Option Int)) 3).2.2.2.1 (by omega) rfl
  refine ⟨(claim_C6_settle (fun _ => some 7) 3).1 (fun j _ => by simp),
    hfalse,
    (claim_C6_settle (fun _ => (none : Option Int)) 3).2.1 hfalse,
    (claim_C6_settle (fun _ => (none : Option Int)) 3).2.2.2.2
      (Cfg.mk [] [] (fun _ => []) 1000000 2) SRC_FOLDER DEST_FOLDER
      { noFaults with settleSample := fun _ => none }
      ⟨⟨[⟨SRC_FOLDER, "a.pdf".data, "x".data⟩]⟩, []⟩ "a.pdf".data rfl rfl
      hfalse⟩

/-- Claim C3 (corrected): with `retries = 3` (the default) and a destination
that raises on every try, `safe_move` invokes `shutil.move` four times — one
initial attempt plus three retries — not three. -/
theorem claim_C3_counterexample :
    (safeMove (⟨[⟨SRC_FOLDER, "a.pdf".data, "x".data⟩]⟩ : FS) SRC_FOLDER
        "a.pdf".data DEST_FOLDER "a.pdf".data 3 2 (fun _ => true) false).attempts
      = 4 ∧ ¬(4 = 3) := by
  constructor
  · rfl
  · decide

/-- Claim C3 (amended): when the source exists and every move try to the
destination raises, `safe_move` makes exactly `retries + 1` move attempts
(default `retries = 3`, hence 4 attempts) with the fixed delay slept between
consecutive attempts (`retries` sleeps of `waitSecs`), then moves the file
into the `Could not move` quarantine folder under the uniquified
`unmoved_`-prefixed name, so the source directory no longer contains the
file; the quarantine move itself is best-effort: its own failure leaves the
filesystem unchanged and is not retried (still exactly `retries + 1` move
attempts). -/
theorem claim_C3_quarantine (fs : FS) (sdir : DirPath) (sname : Str)
    (ddir : DirPath) (dname : Str) (retries waitSecs : Nat)
    (failAt : Nat → Bool)
    (hsrc : fexists fs sdir sname = true) (hfail : ∀ k, failAt k = true) :
    let qname0 := "unmoved_".data ++ sname
    let qname := if fexists fs COULD_NOT_MOVE_FOLDER qname0 then
        uniqueWithCounter (listDirFS fs COULD_NOT_MOVE_FOLDER) qname0
      else qname0
    let r := safeMove fs sdir sname ddir dname retries waitSecs failAt false
    let rq := safeMove fs sdir sname ddir dname retries waitSecs failAt true
    r.attempts = retries + 1 ∧ r.sleeps = List.replicate retries waitSecs ∧
    r.ok = false ∧ r.fs = moveFS fs sdir sname COULD_NOT_MOVE_FOLDER qname ∧
    r.finalAt = some (COULD_NOT_MOVE_FOLDER, qname) ∧
    fexists r.fs sdir sname = false ∧
    fexists r.fs COULD_NOT_MOVE_FOLDER qname = true ∧
    rq.attempts = retries + 1 ∧ rq.ok = false ∧ rq.fs = fs ∧
    rq.finalAt = some (sdir, sname) := by
  intro qname0 qname r rq
  have hr : r = quarantineStep fs sdir sname false (retries + 1)
      (List.replicate retries waitSecs) :=
    safeMove_all_fail fs sdir sname ddir dname retries waitSecs failAt false
      hsrc hfail
  have hrq : rq = quarantineStep fs sdir sname true (retries + 1)
      (List.replicate retries waitSecs) :=
    safeMove_all_fail fs sdir sname ddir dname retries waitSecs failAt true
      hsrc hfail
  have hqn : sname.length < qname.length := by
    show sname.length < (if fexists fs COULD_NOT_MOVE_FOLDER qname0 then
        uniqueWithCounter (listDirFS fs COULD_NOT_MOVE_FOLDER) qname0
      else qname0).length
    have hq0 : qname0.length = 8 + sname.length := by
      show ("unmoved_".data ++ sname).length = 8 + sname.length
      simp
      omega
    split
    · have := uniqueWithCounter_length_ge (listDirFS fs COULD_NOT_MOVE_FOLDER) qname0
      omega
    · omega
  have hqs : ¬(COULD_NOT_MOVE_FOLDER = sdir ∧ qname = sname) := by
    rintro ⟨_, hq⟩
    rw [hq] at hqn
    omega
  obtain ⟨c, hc⟩ := getContent_isSome_of_fexists fs sdir sname hsrc
  have hmv : moveFS fs sdir sname COULD_NOT_MOVE_FOLDER qname =
      addFS (removeFS fs sdir sname) COULD_NOT_MOVE_FOLDER qname c := by
    unfold moveFS
    rw [hc]
  have hquar : quarantineStep fs sdir sname false (retries + 1)
      (List.replicate retries waitSecs) =
      ⟨moveFS fs sdir sname COULD_NOT_MOVE_FOLDER qname, false,
        some (COULD_NOT_MOVE_FOLDER, qname), retries + 1,
        List.replicate retries waitSecs⟩ := by
    unfold quarantineStep
    rfl
  have hquarq : quarantineStep fs sdir sname true (retries + 1)
      (List.replicate retries waitSecs) =
      ⟨fs, false, some (sdir, sname), retries + 1,
        List.replicate retries waitSecs⟩ := by
    unfold quarantineStep
    rfl
  refine ⟨by rw [hr, hquar], by rw [hr, hquar], by rw [hr, hquar],
    by rw [hr, hquar], by rw [hr, hquar], ?_, ?_,
    by rw [hrq, hquarq], by rw [hrq, hquarq], by rw [hrq, hquarq],
    by rw [hrq, hquarq]⟩
  · rw [hr, hquar]
    show fexists (moveFS fs sdir sname COULD_NOT_MOVE_FOLDER qname) sdir sname
      = false
    rw [hmv, fexists_addFS_other _ _ _ _ _ _ hqs, fexists_removeFS_self]
  · rw [hr, hquar]
    show fexists (moveFS fs sdir sname COULD_NOT_MOVE_FOLDER qname)
      COULD_NOT_MOVE_FOLDER qname = true
    rw [hmv, fexists_addFS_self]

theorem claim_C3_witness :
    let fs : FS := ⟨[⟨SRC_FOLDER, "a.pdf".data, "x".data⟩]⟩
    let r := safeMove fs SRC_FOLDER "a.pdf".data DEST_FOLDER "a.pdf".data 3 2
      (fun _ => true) false
    r.attempts = 3 + 1 ∧ r.sleeps = [2, 2, 2] ∧ r.ok = false ∧
      fexists r.fs SRC_FOLDER "a.pdf".data = false ∧
      fexists r.fs COULD_NOT_MOVE_FOLDER "unmoved_a.pdf".data = true := by
  intro fs r
  have h := claim_C3_quarantine fs SRC_FOLDER "a.pdf".data DEST_FOLDER
    "a.pdf".data 3 2 (fun _ => true) rfl (fun _ => rfl)
  exact ⟨h.1, h.2.1, h.2.2.1, h.2.2.2.2.2.1, h.2.2.2.2.2.2.1⟩

/-- Claim C4: when the destination path already exists and `safe_move`
succeeds, it never overwrites the existing file: it picks the first free
numeric-suffix variant `base (i) ext` of the destination name (computed by
`_unique_with_counter`), moves the source there, the preexisting destination
file is untouched, and the moved file ends at exactly one path — the original
source path no longer exists. -/
theorem claim_C4_no_overwrite (fs : FS) (sdir : DirPath) (sname : Str)
    (ddir : DirPath) (dname : Str) (retries waitSecs : Nat)
    (failAt : Nat → Bool) (qFail : Bool)
    (hsrc : fexists fs sdir sname = true)
    (hdest : fexists fs ddir dname = true)
    (hne : ¬(sdir = ddir ∧ sname = dname))
    (hok : (safeMove fs sdir sname ddir dname retries waitSecs failAt
      qFail).ok = true) :
    let u := uniqueWithCounter (listDirFS fs ddir) dname
    let r := safeMove fs sdir sname ddir dname retries waitSecs failAt qFail
    (∃ i, 1 ≤ i ∧
      u = counterCand (splitExtName dname).1 (splitExtName dname).2 i) ∧
    u ∉ listDirFS fs ddir ∧
    r.finalAt = some (ddir, u) ∧
    getContent r.fs ddir dname = getContent fs ddir dname ∧
    fexists r.fs sdir sname = false ∧
    getContent r.fs ddir u = getContent fs sdir sname := by
  intro u r
  have hmem : dname ∈ listDirFS fs ddir := (fexists_iff_mem_listDir _ _ _).mp hdest
  have hfree : u ∉ listDirFS fs ddir := uniqueWithCounter_not_taken _ _
  have hund : u ≠ dname := fun he => hfree (he ▸ hmem)
  have hshape : ∃ i, 1 ≤ i ∧
      u = counterCand (splitExtName dname).1 (splitExtName dname).2 i := by
    rcases uniqueWithCounter_shape (listDirFS fs ddir) dname with hsh | hsh
    · exact absurd hsh hund
    · exact hsh
  have hsm : r = safeMoveGo sdir sname ddir dname retries waitSecs failAt
      qFail fs 0 (retries + 1) := by
    show safeMove fs sdir sname ddir dname retries waitSecs failAt qFail = _
    unfold safeMove
    rw [hsrc]
    rfl
  have hok2 : (safeMoveGo sdir sname ddir dname retries waitSecs failAt qFail
      fs 0 (retries + 1)).ok = true := by rw [← hsm]; exact hok
  have hspec := safeMoveGo_ok_spec sdir sname ddir dname retries waitSecs
    failAt qFail fs (retries + 1) 0 hok2
  have hrchar : r.fs = moveFS fs sdir sname ddir u ∧
      r.finalAt = some (ddir, u) := by
    rw [hsm, hspec]
    constructor
    · show (if fexists fs ddir dname = true then
          moveFS fs sdir sname ddir (uniqueWithCounter (listDirFS fs ddir) dname)
        else moveFS fs sdir sname ddir dname) = moveFS fs sdir sname ddir u
      rw [if_pos hdest]
    · show some (ddir, if fexists fs ddir dname = true then
          uniqueWithCounter (listDirFS fs ddir) dname else dname) = some (ddir, u)
      rw [if_pos hdest]
  obtain ⟨c, hc⟩ := getContent_isSome_of_fexists fs sdir sname hsrc
  have hmv : moveFS fs sdir sname ddir u =
      addFS (removeFS fs sdir sname) ddir u c := by
    unfold moveFS
    rw [hc]
  have hsu : ¬(sdir = ddir ∧ sname = u) := by
    rintro ⟨hd, hn⟩
    subst hd
    exact hfree (hn ▸ (fexists_iff_mem_listDir _ _ _).mp hsrc)
  have hfree' : fexists fs ddir u = false := by
    cases hfu : fexists fs ddir u with
    | false => rfl
    | true => exact absurd ((fexists_iff_mem_listDir _ _ _).mp hfu) hfree
  refine ⟨hshape, hfree, hrchar.2, ?_, ?_, ?_⟩
  · rw [hrchar.1, hmv,
      getContent_addFS_other _ _ _ _ _ _ (fun hp => hund hp.2),
      getContent_removeFS_other _ _ _ _ _ hne]
  · rw [hrchar.1, hmv, fexists_addFS_other _ _ _ _ _ _
      (fun hp => hsu ⟨hp.1.symm, hp.2.symm⟩), fexists_removeFS_self]
  · rw [hrchar.1, hmv, getContent_addFS_self _ _ _ _ ?_, hc]
    rw [fexists_removeFS_other _ _ _ _ _ hsu, hfree']

theorem claim_C4_witness :
    let fs : FS := ⟨[⟨SRC_FOLDER, "a.pdf".data, "x".data⟩,
      ⟨DEST_FOLDER, "a.pdf".data, "y".data⟩]⟩
    let u := uniqueWithCounter (listDirFS fs DEST_FOLDER) "a.pdf".data
    let r := safeMove fs SRC_FOLDER "a.pdf".data DEST_FOLDER "a.pdf".data 3 2
      (fun _ => false) false
    (∃ i, 1 ≤ i ∧ u = counterCand (splitExtName "a.pdf".data).1
      (splitExtName "a.pdf".data).2 i) ∧
    u ∉ listDirFS fs DEST_FOLDER ∧
    r.finalAt = some (DEST_FOLDER, u) ∧
    getContent r.fs DEST_FOLDER "a.pdf".data = getContent fs DEST_FOLDER "a.pdf".data ∧
    fexists r.fs SRC_FOLDER "a.pdf".data = false ∧
    getContent r.fs DEST_FOLDER u = getContent fs SRC_FOLDER "a.pdf".data := by
  intro fs u r
  exact claim_C4_no_overwrite fs SRC_FOLDER "a.pdf".data DEST_FOLDER
    "a.pdf".data 3 2 (fun _ => false) false rfl rfl (by decide) rfl

/-- Claim C5 (corrected): the router records the *requested* destination
path, not the path the file actually ended at. With a name collision at the
destination, the moved file lands at `r receipt (1).pdf` while the ledger's
`last_path` names `r receipt.pdf` — a different file (the preexisting one). -/
theorem claim_C5_counterexample :
    movePass (Cfg.mk [] [] (fun _ => []) 1000000 2) SRC_FOLDER DEST_FOLDER
        (fun _ => noFaults)
        ⟨⟨[⟨SRC_FOLDER, "r receipt.pdf".data, "x".data⟩,
          ⟨RECEIPTS_FOLDER, "r receipt.pdf".data, "y".data⟩]⟩, []⟩ =
      .ok ⟨⟨[⟨RECEIPTS_FOLDER, "r receipt.pdf".data, "y".data⟩,
          ⟨RECEIPTS_FOLDER, "r receipt (1).pdf".data, "x".data⟩]⟩,
        [LEntry.mk "x".data (some 1) 1000000 1000000 RECEIPTS_FOLDER
          "r receipt.pdf".data]⟩ ∧
    "r receipt (1).pdf".data ≠ "r receipt.pdf".data := by
  exact ⟨rfl, by decide⟩

/-- Claim C5 (amended): for every file whose fingerprint was computed and
whose move succeeds, the router upserts the Duplicate Ledger with that
fingerprint and the requested destination path — which equals the path the
file actually ended at whenever no name collision occurred; and since the
hash is the unique key, a hash never recorded before has exactly one ledger
row after the successful move, while re-recording an existing hash never
creates a second row. -/
theorem claim_C5_record_on_success (cfg : Cfg) (srcDir : DirPath) (name : Str)
    (targetDir : DirPath) (targetName : Str) (h : Str) (fl : FileFaults)
    (s : Sys)
    (hok : (safeMove s.fs srcDir name targetDir targetName 3 cfg.waitSecs
      fl.moveFailAt fl.quarantineFail).ok = true)
    (hrec : fl.recordFail = false) :
    let r := safeMove s.fs srcDir name targetDir targetName 3 cfg.waitSecs
      fl.moveFailAt fl.quarantineFail
    let led := dbRecord s.ledger h
      ((getContent r.fs targetDir targetName).map (fun c => (c.length : Int)))
      cfg.now targetDir targetName
    moveAndRecord cfg srcDir name targetDir targetName (some h) fl s =
      .ok ⟨r.fs, led⟩ ∧
    (countHash s.ledger h = 0 → countHash led h = 1) ∧
    (s.ledger.any (fun e => e.sha256 == h) = true →
      ∀ h2, countHash led h2 = countHash s.ledger h2) ∧
    ((safeMove s.fs srcDir name targetDir targetName 3 cfg.waitSecs
        fl.moveFailAt fl.quarantineFail).finalAt = some (targetDir, targetName) →
      ∃ e ∈ led, e.sha256 = h ∧ e.lastDir = targetDir ∧ e.lastName = targetName) := by
  intro r led
  refine ⟨?_, ?_, ?_, ?_⟩
  · unfold moveAndRecord
    dsimp only
    rw [if_pos hok]
    simp only [hrec, Bool.false_eq_true, if_false]
  · intro h0
    exact countHash_dbRecord_self_absent s.ledger h _ cfg.now targetDir
      targetName h0
  · intro hpres h2
    exact countHash_dbRecord_present s.ledger h h2 _ cfg.now targetDir
      targetName hpres
  · intro _
    show ∃ e ∈ dbRecord s.ledger h _ cfg.now targetDir targetName,
      e.sha256 = h ∧ e.lastDir = targetDir ∧ e.lastName = targetName
    by_cases hpres : s.ledger.any (fun e => e.sha256 == h) = true
    · rw [dbRecord_present _ _ _ _ _ _ hpres]
      rw [List.any_eq_true] at hpres
      obtain ⟨e, he, hsha⟩ := hpres
      refine ⟨_, List.mem_map_of_mem _ he, ?_⟩
      simp only [hsha, if_true, and_true]
      exact beq_iff_eq.mp hsha
    · rw [Bool.not_eq_true] at hpres
      rw [dbRecord_absent _ _ _ _ _ _ hpres]
      exact ⟨_, List.mem_append_right _ (List.mem_singleton_self _),
        rfl, rfl, rfl⟩

theorem claim_C5_witness :
    let s : Sys := ⟨⟨[⟨SRC_FOLDER, "b.pdf".data, "x".data⟩]⟩, []⟩
    let cfg : Cfg := Cfg.mk [] [] (fun _ => []) 1000000 2
    let r := safeMove s.fs SRC_FOLDER "b.pdf".data NEW_PROVIDER_FOLDER
      "b.pdf".data 3 cfg.waitSecs noFaults.moveFailAt noFaults.quarantineFail
    moveAndRecord cfg SRC_FOLDER "b.pdf".data NEW_PROVIDER_FOLDER "b.pdf".data
      (some "x".data) noFaults s =
      .ok ⟨r.fs, dbRecord [] "x".data
        ((getContent r.fs NEW_PROVIDER_FOLDER "b.pdf".data).map
          (fun c => (c.length : Int))) 1000000 NEW_PROVIDER_FOLDER "b.pdf".data⟩ ∧
    (countHash [] "x".data = 0 →
      countHash (dbRecord [] "x".data
        ((getContent r.fs NEW_PROVIDER_FOLDER "b.pdf".data).map
          (fun c => (c.length : Int))) 1000000 NEW_PROVIDER_FOLDER "b.pdf".data)
        "x".data = 1) := by
  intro s cfg r
  have h := claim_C5_record_on_success cfg SRC_FOLDER "b.pdf".data
    NEW_PROVIDER_FOLDER "b.pdf".data "x".data noFaults s rfl rfl
  exact ⟨h.1, h.2.1⟩

/-! ## Router step lemmas -/

/-- `safe_move` when the first try succeeds and the destination is free. -/
theorem safeMove_clean (fs : FS) (sdir : DirPath) (sname : Str)
    (ddir : DirPath) (dname : Str) (retries waitSecs : Nat)
    (failAt : Nat → Bool) (qFail : Bool)
    (hsrc : fexists fs sdir sname = true) (hf0 : failAt 0 = false)
    (hfree : fexists fs ddir dname = false) :
    safeMove fs sdir sname ddir dname retries waitSecs failAt qFail =
      ⟨moveFS fs sdir sname ddir dname, true, some (ddir, dname), 1, []⟩ := by
  unfold safeMove
  rw [hsrc]
  simp only [Bool.not_true, Bool.false_eq_true, if_false]
  show safeMoveGo sdir sname ddir dname retries waitSecs failAt qFail fs 0
    (retries + 1) = _
  unfold safeMoveGo
  rw [if_neg (by rw [hf0]; exact Bool.false_ne_true), hfree]
  simp

/-- `if safe_move(...): _db_record(dest, hash)` in the clean case: the move
lands exactly at the requested path and the recorded size is the moved
file's length. -/
theorem moveAndRecord_clean (cfg : Cfg) (srcDir : DirPath) (name : Str)
    (targetDir : DirPath) (targetName : Str) (h : Str) (fl : FileFaults)
    (s : Sys) (c : Str)
    (hc : getContent s.fs srcDir name = some c)
    (hsrc : fexists s.fs srcDir name = true)
    (hf0 : fl.moveFailAt 0 = false)
    (hfree : fexists s.fs targetDir targetName = false)
    (hrec : fl.recordFail = false)
    (hne : ¬(srcDir = targetDir ∧ name = targetName)) :
    moveAndRecord cfg srcDir name targetDir targetName (some h) fl s =
      .ok ⟨addFS (removeFS s.fs srcDir name) targetDir targetName c,
           dbRecord s.ledger h (some (c.length : Int)) cfg.now targetDir
             targetName⟩ := by
  unfold moveAndRecord
  rw [safeMove_clean s.fs srcDir name targetDir targetName 3 cfg.waitSecs
    fl.moveFailAt fl.quarantineFail hsrc hf0 hfree]
  have hmv : moveFS s.fs srcDir name targetDir targetName =
      addFS (removeFS s.fs srcDir name) targetDir targetName c := by
    unfold moveFS
    rw [hc]
  dsimp only
  rw [if_pos rfl]
  simp only [hrec, Bool.false_eq_true, if_false]
  rw [hmv]
  rw [getContent_addFS_self _ _ _ _ (by
    rw [fexists_removeFS_other _ _ _ _ _ hne, hfree])]
  rfl

/-- The duplicate step is the identity when the ledger has not seen the hash
recently. -/
theorem dupStep_not_seen (srcDir : DirPath) (name : Str) (h : Str) (now : Int)
    (fl : FileFaults) (s : Sys)
    (hseenF : fl.seenFail = false)
    (hns : dbSeenRecently s.ledger h 90 now = false) :
    dupStep srcDir name (some h) now fl s = .ok (s, name) := by
  unfold dupStep
  simp only [hseenF, Bool.false_eq_true, if_false, hns]

/-- Claim C10: a file in the main source directory whose name contains
`receipt` (case-insensitively), when the destination root's basename is
`Invoice Program`, is moved directly to the fixed `Renamed Receipts` folder
and the ledger entry records that folder — without rendering the PDF,
running OCR, consulting the vendor table, or using the resolved plan
manager: the result is one and the same for every vendor table `V`, client
registry `K` and text-extraction collaborator `O`, and the content-based
classification is never reached. -/
theorem claim_C10_receipts (V : List (Str × Int)) (K : List ClientRecord)
    (O : Str → List Str) (now : Int) (w : Nat) (fl : FileFaults) (s : Sys)
    (name : Str) (c : Str)
    (hc : getContent s.fs SRC_FOLDER name = some c)
    (hsrc : fexists s.fs SRC_FOLDER name = true)
    (hsettle : waitForSettle fl.settleSample 3 = true)
    (hhash : fl.hashFail = false)
    (hseenF : fl.seenFail = false)
    (hns : dbSeenRecently s.ledger (fileHash c) 90 now = false)
    (hrcpt : containsStr "receipt".data (toLowerStr name) = true)
    (hf0 : fl.moveFailAt 0 = false)
    (hrec : fl.recordFail = false)
    (hfree : fexists s.fs RECEIPTS_FOLDER name = false) :
    processFile (Cfg.mk V K O now w) SRC_FOLDER DEST_FOLDER fl s name =
      .ok ⟨addFS (removeFS s.fs SRC_FOLDER name) RECEIPTS_FOLDER name c,
           dbRecord s.ledger (fileHash c) (some (c.length : Int)) now
             RECEIPTS_FOLDER name⟩ := by
  have hnotattempt : (SRC_FOLDER == SRC_FOLDER_ATTEMPT) = false := by decide
  have hbase : (basenameP DEST_FOLDER == "Invoice Program".data) = true := by
    decide
  have hnotrec : ¬(SRC_FOLDER = RECEIPTS_FOLDER ∧ name = name) := by
    rintro ⟨hd, -⟩
    exact absurd (congrArg List.length hd) (by decide)
  unfold processFile
  rw [hsrc]
  simp only [Bool.not_true, Bool.false_eq_true, if_false]
  rw [hsettle]
  simp only [Bool.not_true, Bool.false_eq_true, if_false, hhash, hc]
  rw [dupStep_not_seen SRC_FOLDER name (fileHash c) now fl s hseenF hns]
  simp only [hnotattempt, Bool.false_eq_true, if_false]
  unfold tryBody
  rw [hrcpt, hbase]
  simp only [Bool.and_self, if_true]
  rw [moveAndRecord_clean (Cfg.mk V K O now w) SRC_FOLDER name RECEIPTS_FOLDER
    name (fileHash c) fl s c hc hsrc hf0 hfree hrec hnotrec]

theorem claim_C10_witness :
    let s : Sys := ⟨⟨[⟨SRC_FOLDER, "my receipt.pdf".data, "x".data⟩]⟩, []⟩
    processFile (Cfg.mk [("v".data, 1)] [] (fun _ => ["p".data]) 999 2)
        SRC_FOLDER DEST_FOLDER noFaults s "my receipt.pdf".data =
      .ok ⟨addFS (removeFS s.fs SRC_FOLDER "my receipt.pdf".data)
             RECEIPTS_FOLDER "my receipt.pdf".data "x".data,
           dbRecord [] "x".data (some 1) 999 RECEIPTS_FOLDER
             "my receipt.pdf".data⟩ := by
  intro s
  exact claim_C10_receipts [("v".data, 1)] [] (fun _ => ["p".data]) 999 2
    noFaults s "my receipt.pdf".data "x".data rfl rfl rfl rfl rfl rfl rfl rfl
    rfl rfl

/-- If any recognized page contains the NDIS token (after the code's
lower-case + space-stripping normalization), the OCR scan loop reports the
NDIS statement flag, whatever the vendor table and whatever the accumulated
flags. -/
theorem scanPagesGo_ndis (vendors : List (Str × Int)) :
    ∀ (pages : List Str) (sta resp : Bool) (vend : Option Str),
      (∃ pg ∈ pages,
        containsStr "ndisactivitystatement".data (normalizePage pg) = true) →
      (scanPagesGo vendors sta resp vend pages).ndis = true := by
  intro pages
  induction pages with
  | nil =>
    rintro sta resp vend ⟨pg, hm, -⟩
    cases hm
  | cons p t ih =>
    rintro sta resp vend ⟨pg, hm, htok⟩
    unfold scanPagesGo
    by_cases hp : containsStr "ndisactivitystatement".data (normalizePage p)
        = true
    · simp only [hp, if_true]
    · rw [Bool.not_eq_true] at hp
      simp only [hp, Bool.false_eq_true, if_false]
      rcases List.mem_cons.mp hm with rfl | hmt
      · rw [htok] at hp
        cases hp
      · exact ih _ _ _ ⟨pg, hmt, htok⟩

/-- Claim C2 (corrected, counterexample): the code removes only spaces, not
all whitespace, before the token test. A page reading `NDIS Activity` /
newline / `Statement` contains the token under the spec's
whitespace-removing normalization, yet the router sends the file to the New
Provider folder, not the fixed NDIS statement folder. -/
theorem claim_C2_counterexample :
    containsStr "ndisactivitystatement".data
      (specNormalizeWS "NDIS Activity\nStatement".data) = true ∧
    movePass (Cfg.mk [] [] (fun _ => ["NDIS Activity\nStatement".data])
        1000000 2) SRC_FOLDER DEST_FOLDER (fun _ => noFaults)
        ⟨⟨[⟨SRC_FOLDER, "a.pdf".data, "q".data⟩]⟩, []⟩ =
      .ok (Sys.mk
        (FS.mk [FEntry.mk (UNASSIGNED_PLAN_MANAGER_FOLDER ++
          ["New Provider".data]) "a.pdf".data "q".data])
        [LEntry.mk "q".data (some 1) 1000000 1000000
          (UNASSIGNED_PLAN_MANAGER_FOLDER ++ ["New Provider".data])
          "a.pdf".data]) ∧
    UNASSIGNED_PLAN_MANAGER_FOLDER ++ ["New Provider".data] ≠
      NDIS_STATEMENT_PATH := by
  exact ⟨rfl, rfl, by decide⟩

/-- Claim C2 (amended): for every PDF processed from the main source folder,
if the recognized text of any page contains the token
`ndisactivitystatement` after lower-casing and removing spaces (the code's
normalization — other whitespace is kept), the file is routed to the single
fixed organization-wide NDIS statement folder, regardless of the vendor
table `V` and of the client registry `K` (hence of the resolved plan
manager): the resulting state does not mention either. -/
theorem claim_C2_ndis_routing (V : List (Str × Int)) (K : List ClientRecord)
    (O : Str → List Str) (now : Int) (w : Nat) (fl : FileFaults) (s : Sys)
    (name : Str) (c : Str)
    (hc : getContent s.fs SRC_FOLDER name = some c)
    (hsrc : fexists s.fs SRC_FOLDER name = true)
    (hsettle : waitForSettle fl.settleSample 3 = true)
    (hhash : fl.hashFail = false)
    (hseenF : fl.seenFail = false)
    (hns : dbSeenRecently s.ledger (fileHash c) 90 now = false)
    (hnorcpt : containsStr "receipt".data (toLowerStr name) = false)
    (hpdf : endsWithB ".pdf".data (toLowerStr name) = true)
    (hrender : fl.renderFail = false)
    (hocr : fl.ocrFail = false)
    (htok : ∃ pg ∈ O c,
      containsStr "ndisactivitystatement".data (normalizePage pg) = true)
    (hf0 : fl.moveFailAt 0 = false)
    (hrec : fl.recordFail = false)
    (hfree : fexists s.fs NDIS_STATEMENT_PATH name = false) :
    processFile (Cfg.mk V K O now w) SRC_FOLDER DEST_FOLDER fl s name =
      .ok ⟨addFS (removeFS s.fs SRC_FOLDER name) NDIS_STATEMENT_PATH name c,
           dbRecord s.ledger (fileHash c) (some (c.length : Int)) now
             NDIS_STATEMENT_PATH name⟩ := by
  have hnotattempt : (SRC_FOLDER == SRC_FOLDER_ATTEMPT) = false := by decide
  have hsrcmain : (SRC_FOLDER == SRC_FOLDER ||
      SRC_FOLDER == SRC_FOLDER_FAILED) = true := by decide
  have hnotndis : ¬(SRC_FOLDER = NDIS_STATEMENT_PATH ∧ name = name) := by
    rintro ⟨hd, -⟩
    exact absurd (congrArg List.length hd) (by decide)
  have hnd : (scanPages V (O c)).ndis = true :=
    scanPagesGo_ndis V (O c) false false none htok
  unfold processFile
  rw [hsrc]
  simp only [Bool.not_true, Bool.false_eq_true, if_false]
  rw [hsettle]
  simp only [Bool.not_true, Bool.false_eq_true, if_false, hhash, hc]
  rw [dupStep_not_seen SRC_FOLDER name (fileHash c) now fl s hseenF hns]
  simp only [hnotattempt, Bool.false_eq_true, if_false]
  unfold tryBody
  rw [hnorcpt]
  simp only [Bool.false_and, Bool.false_eq_true, if_false]
  rw [hpdf, hsrcmain]
  simp only [Bool.and_self, if_true, hrender, Bool.false_eq_true, if_false,
    hocr, hc]
  rw [if_pos hnd]
  rw [moveAndRecord_clean (Cfg.mk V K O now w) SRC_FOLDER name
    NDIS_STATEMENT_PATH name (fileHash c) fl s c hc hsrc hf0 hfree hrec
    hnotndis]

theorem claim_C2_witness :
    let s : Sys := ⟨⟨[⟨SRC_FOLDER, "a.pdf".data, "q".data⟩]⟩, []⟩
    processFile (Cfg.mk [("acme".data, 1)] []
        (fun _ => ["NDIS Activity Statement".data]) 1000000 2)
        SRC_FOLDER DEST_FOLDER noFaults s "a.pdf".data =
      .ok ⟨addFS (removeFS s.fs SRC_FOLDER "a.pdf".data) NDIS_STATEMENT_PATH
             "a.pdf".data "q".data,
           dbRecord [] "q".data (some 1) 1000000 NDIS_STATEMENT_PATH
             "a.pdf".data⟩ := by
  intro s
  exact claim_C2_ndis_routing [("acme".data, 1)] []
    (fun _ => ["NDIS Activity Statement".data]) 1000000 2 noFaults s
    "a.pdf".data "q".data rfl rfl rfl rfl rfl rfl rfl rfl rfl rfl
    ⟨"NDIS Activity Statement".data, List.mem_singleton_self _, rfl⟩ rfl rfl rfl

theorem planManagerRoot_cases (pm : Str) :
    planManagerRoot pm = UNASSIGNED_PLAN_MANAGER_FOLDER ∨
    ∃ x, planManagerRoot pm = DEST_FOLDER ++ [x] := by
  unfold planManagerRoot
  by_cases h1 : stripWS pm = []
  · left
    simp [h1]
  · by_cases h2 : sanitizeFolderName (stripWS pm) = []
    · left
      simp [h1, h2]
    · right
      exact ⟨sanitizeFolderName (stripWS pm), by simp [h1, h2]⟩

theorem planManagerRoot_length (pm : Str) : (planManagerRoot pm).length = 10 := by
  rcases planManagerRoot_cases pm with h | ⟨x, h⟩
  · rw [h]
    rfl
  · rw [h, List.length_append]
    rfl

/-- Claim C7 (amended): for a PDF from the main source folder that is not an
NDIS activity statement, if the OCR scan sets the STA flag (the code's
pattern: `\bsta\b` or `\b\dsta\b` over the lower-cased, space-stripped text)
or the respite flag (`inc\.` + a whitespace character + `respite` over that
same space-stripped text), the file is routed to the `STA and Assistance`
subfolder under the plan-manager root — whatever vendor the scan may also
have found: the destination does not depend on the scan's vendor component. -/
theorem claim_C7_sta_routing (V : List (Str × Int)) (K : List ClientRecord)
    (O : Str → List Str) (now : Int) (w : Nat) (fl : FileFaults) (s : Sys)
    (name : Str) (c : Str)
    (hc : getContent s.fs SRC_FOLDER name = some c)
    (hsrc : fexists s.fs SRC_FOLDER name = true)
    (hsettle : waitForSettle fl.settleSample 3 = true)
    (hhash : fl.hashFail = false)
    (hseenF : fl.seenFail = false)
    (hns : dbSeenRecently s.ledger (fileHash c) 90 now = false)
    (hnorcpt : containsStr "receipt".data (toLowerStr name) = false)
    (hpdf : endsWithB ".pdf".data (toLowerStr name) = true)
    (hrender : fl.renderFail = false)
    (hocr : fl.ocrFail = false)
    (hnd : (scanPages V (O c)).ndis = false)
    (hsta : ((scanPages V (O c)).sta || (scanPages V (O c)).respite) = true)
    (hf0 : fl.moveFailAt 0 = false)
    (hrec : fl.recordFail = false)
    (hfree : fexists s.fs (planManagerRoot (lookupPlanManager K name) ++
      ["STA and Assistance".data]) name = false) :
    processFile (Cfg.mk V K O now w) SRC_FOLDER DEST_FOLDER fl s name =
      .ok ⟨addFS (removeFS s.fs SRC_FOLDER name)
             (planManagerRoot (lookupPlanManager K name) ++
               ["STA and Assistance".data]) name c,
           dbRecord s.ledger (fileHash c) (some (c.length : Int)) now
             (planManagerRoot (lookupPlanManager K name) ++
               ["STA and Assistance".data]) name⟩ := by
  have hnotattempt : (SRC_FOLDER == SRC_FOLDER_ATTEMPT) = false := by decide
  have hnotfailed : (SRC_FOLDER == SRC_FOLDER_FAILED) = false := by decide
  have hsrcmain : (SRC_FOLDER == SRC_FOLDER ||
      SRC_FOLDER == SRC_FOLDER_FAILED) = true := by decide
  have hbn : basenameP STA_INVOICES_FOLDER = "STA and Assistance".data := rfl
  have hnesta : ¬(SRC_FOLDER = planManagerRoot (lookupPlanManager K name) ++
      ["STA and Assistance".data] ∧ name = name) := by
    rintro ⟨hd, -⟩
    have := congrArg List.length hd
    rw [List.length_append, planManagerRoot_length] at this
    exact absurd this (by decide)
  unfold processFile
  rw [hsrc]
  simp only [Bool.not_true, Bool.false_eq_true, if_false]
  rw [hsettle]
  simp only [Bool.not_true, Bool.false_eq_true, if_false, hhash, hc]
  rw [dupStep_not_seen SRC_FOLDER name (fileHash c) now fl s hseenF hns]
  simp only [hnotattempt, Bool.false_eq_true, if_false]
  unfold tryBody
  rw [hnorcpt]
  simp only [Bool.false_and, Bool.false_eq_true, if_false]
  rw [hpdf, hsrcmain]
  simp only [Bool.and_self, if_true, hrender, Bool.false_eq_true, if_false,
    hocr, hc]
  simp only [hnd, Bool.false_eq_true, if_false, hnotfailed, hsta, if_true, hbn]
  rw [moveAndRecord_clean (Cfg.mk V K O now w) SRC_FOLDER name
    (planManagerRoot (lookupPlanManager K name) ++ ["STA and Assistance".data])
    name (fileHash c) fl s c hc hsrc hf0 hfree hrec hnesta]

/-- Claim C7 (corrected, counterexample): the code's STA pattern is
`\b\dsta\b` (a single digit preceded by a word boundary), not the spec's
`\d+sta\b`, and its respite pattern demands a whitespace character between
`inc.` and `respite` in text whose spaces were already stripped. Recognized
text `12 sta` matches the claimed pattern but the router files the PDF under
New Provider, not STA and Assistance; likewise for `inc. respite`. -/
theorem claim_C7_counterexample :
    specStaMatch (normalizePage "12 sta".data) = true ∧
    staMatch (normalizePage "12 sta".data) = false ∧
    movePass (Cfg.mk [] [] (fun _ => ["12 sta".data]) 1000000 2) SRC_FOLDER
        DEST_FOLDER (fun _ => noFaults)
        ⟨⟨[⟨SRC_FOLDER, "b.pdf".data, "w".data⟩]⟩, []⟩ =
      .ok (Sys.mk (FS.mk [FEntry.mk (UNASSIGNED_PLAN_MANAGER_FOLDER ++
          ["New Provider".data]) "b.pdf".data "w".data])
        [LEntry.mk "w".data (some 1) 1000000 1000000
          (UNASSIGNED_PLAN_MANAGER_FOLDER ++ ["New Provider".data])
          "b.pdf".data]) ∧
    specRespiteMatch (toLowerStr "inc. respite".data) = true ∧
    respiteMatch (normalizePage "inc. respite".data) = false ∧
    movePass (Cfg.mk [] [] (fun _ => ["inc. respite".data]) 1000000 2)
        SRC_FOLDER DEST_FOLDER (fun _ => noFaults)
        ⟨⟨[⟨SRC_FOLDER, "c.pdf".data, "v".data⟩]⟩, []⟩ =
      .ok (Sys.mk (FS.mk [FEntry.mk (UNASSIGNED_PLAN_MANAGER_FOLDER ++
          ["New Provider".data]) "c.pdf".data "v".data])
        [LEntry.mk "v".data (some 1) 1000000 1000000
          (UNASSIGNED_PLAN_MANAGER_FOLDER ++ ["New Provider".data])
          "c.pdf".data]) ∧
    UNASSIGNED_PLAN_MANAGER_FOLDER ++ ["New Provider".data] ≠
      UNASSIGNED_PLAN_MANAGER_FOLDER ++ ["STA and Assistance".data] := by
  exact ⟨rfl, rfl, rfl, rfl, rfl, rfl, by decide⟩

theorem claim_C7_witness :
    let s : Sys := ⟨⟨[⟨SRC_FOLDER, "b.pdf".data, "w".data⟩]⟩, []⟩
    processFile (Cfg.mk [("acme".data, 1)] [] (fun _ => ["sta.".data])
        1000000 2) SRC_FOLDER DEST_FOLDER noFaults s "b.pdf".data =
      .ok ⟨addFS (removeFS s.fs SRC_FOLDER "b.pdf".data)
             (planManagerRoot (lookupPlanManager [] "b.pdf".data) ++
               ["STA and Assistance".data]) "b.pdf".data "w".data,
           dbRecord [] "w".data (some 1) 1000000
             (planManagerRoot (lookupPlanManager [] "b.pdf".data) ++
               ["STA and Assistance".data]) "b.pdf".data⟩ := by
  intro s
  exact claim_C7_sta_routing [("acme".data, 1)] [] (fun _ => ["sta.".data])
    1000000 2 noFaults s "b.pdf".data "w".data rfl rfl rfl rfl rfl rfl rfl rfl
    rfl rfl rfl rfl rfl rfl rfl

/-- The duplicate step can only raise through the un-`try`-protected ledger
query or sibling scan; with those healthy it always returns. -/
theorem dupStep_no_raise (srcDir : DirPath) (name : Str) (hashOpt : Option Str)
    (now : Int) (fl : FileFaults) (s : Sys)
    (h1 : fl.seenFail = false) (h2 : fl.siblingFail = false) :
    ∃ p, dupStep srcDir name hashOpt now fl s = .ok p := by
  unfold dupStep
  match hashOpt with
  | none => exact ⟨_, rfl⟩
  | some h =>
    simp only [h1, Bool.false_eq_true, if_false]
    by_cases hseen : dbSeenRecently s.ledger h 90 now = true
    · rw [if_pos hseen]
      simp only [h2, Bool.false_eq_true, if_false]
      cases findSameNameHash s.fs srcDir name h with
      | none => exact ⟨_, rfl⟩
      | some m =>
        by_cases hrn : fl.renameFail = true
        · rw [if_pos hrn]
          exact ⟨_, rfl⟩
        · rw [if_neg hrn]
          exact ⟨_, rfl⟩
    · rw [Bool.not_eq_true] at hseen
      rw [hseen]
      simp only [Bool.false_eq_true, if_false]
      exact ⟨_, rfl⟩

/-- Outside the Attempt-Code branch, the per-file processing never raises
when the ledger query and the sibling scan are healthy: every raise inside
the big `try` is caught and converted to a per-file outcome. -/
theorem processFile_no_raise (cfg : Cfg) (srcDir destDir : DirPath)
    (fl : FileFaults) (s : Sys) (n : Str)
    (hatt : (srcDir == SRC_FOLDER_ATTEMPT) = false)
    (h1 : fl.seenFail = false) (h2 : fl.siblingFail = false) :
    ∃ s2, processFile cfg srcDir destDir fl s n = .ok s2 := by
  unfold processFile
  by_cases hex : fexists s.fs srcDir n = true
  · rw [hex]
    simp only [Bool.not_true, Bool.false_eq_true, if_false]
    by_cases hst : waitForSettle fl.settleSample 3 = true
    · rw [hst]
      simp only [Bool.not_true, Bool.false_eq_true, if_false]
      obtain ⟨⟨s1, name⟩, hp⟩ := dupStep_no_raise srcDir n
        (if fl.hashFail = true then none
         else match getContent s.fs srcDir n with
           | some c => some (fileHash c)
           | none => none) cfg.now fl s h1 h2
      rw [hp]
      simp only [hatt, Bool.false_eq_true, if_false]
      cases tryBody cfg srcDir destDir (planManagerRoot
        (lookupPlanManager cfg.clients name)) name
        (if fl.hashFail = true then none
         else match getContent s.fs srcDir n with
           | some c => some (fileHash c)
           | none => none) fl s1 with
      | error sPart => exact ⟨sPart, rfl⟩
      | ok s2 => exact ⟨s2, rfl⟩
    · rw [Bool.not_eq_true] at hst
      rw [hst]
      exact ⟨s, rfl⟩
  · rw [Bool.not_eq_true] at hex
    rw [hex]
    exact ⟨s, rfl⟩

theorem movePassGo_no_raise (cfg : Cfg) (srcDir destDir : DirPath)
    (faults : Nat → FileFaults)
    (hatt : (srcDir == SRC_FOLDER_ATTEMPT) = false)
    (hflags : ∀ i, (faults i).seenFail = false ∧ (faults i).siblingFail = false) :
    ∀ (names : List Str) (i : Nat) (s : Sys),
      ∃ s2, movePassGo cfg srcDir destDir faults names i s = .ok s2 := by
  intro names
  induction names with
  | nil => intro i s; exact ⟨s, rfl⟩
  | cons n ns ih =>
    intro i s
    unfold movePassGo
    obtain ⟨s1, hs1⟩ := processFile_no_raise cfg srcDir destDir (faults i) s n
      hatt (hflags i).1 (hflags i).2
    rw [hs1]
    exact ih (i + 1) s1

/-- Claim C9 (amended): for a pass outside the Attempt-Code branch, as long
as the unprotected per-file collaborators — the ledger `seen-recently` query
and the same-name sibling scan, which run outside any `try` — do not raise,
the pass completes for every file regardless of failures at any other stage
(settling, hashing, rename, PDF rendering, OCR, move attempts, quarantine,
ledger record inside the `try`): each such failure is caught and converted
into a per-file outcome. -/
theorem claim_C9_isolation (cfg : Cfg) (srcDir destDir : DirPath)
    (faults : Nat → FileFaults) (s : Sys)
    (hatt : (srcDir == SRC_FOLDER_ATTEMPT) = false)
    (hflags : ∀ i, (faults i).seenFail = false ∧
      (faults i).siblingFail = false) :
    ∃ s2, movePass cfg srcDir destDir faults s = .ok s2 := by
  unfold movePass
  exact movePassGo_no_raise cfg srcDir destDir faults hatt hflags _ 0 s

/-- Claim C9 (corrected, counterexample): `_db_seen_recently` runs outside
the per-file `try` (line 363). If the ledger query raises while the first
file is processed, the whole pass aborts: the second file is never touched
and remains in the source folder. -/
theorem claim_C9_counterexample :
    movePass (Cfg.mk [] [] (fun _ => []) 1000000 2) SRC_FOLDER DEST_FOLDER
        (fun i => if i = 0 then { noFaults with seenFail := true }
          else noFaults)
        ⟨⟨[⟨SRC_FOLDER, "a.pdf".data, "x".data⟩,
          ⟨SRC_FOLDER, "b.pdf".data, "z".data⟩]⟩,
          [LEntry.mk "x".data (some 1) 500 999999 [] []]⟩ =
      .error ⟨⟨[⟨SRC_FOLDER, "a.pdf".data, "x".data⟩,
          ⟨SRC_FOLDER, "b.pdf".data, "z".data⟩]⟩,
          [LEntry.mk "x".data (some 1) 500 999999 [] []]⟩ ∧
    fexists (FS.mk [⟨SRC_FOLDER, "a.pdf".data, "x".data⟩,
        ⟨SRC_FOLDER, "b.pdf".data, "z".data⟩]) SRC_FOLDER "b.pdf".data
      = true := by
  exact ⟨rfl, rfl⟩

theorem claim_C9_witness :
    ∃ s2, movePass (Cfg.mk [] [] (fun _ => []) 1000000 2) SRC_FOLDER
        DEST_FOLDER (fun _ => { noFaults with renderFail := true })
        ⟨⟨[⟨SRC_FOLDER, "a.pdf".data, "x".data⟩,
          ⟨SRC_FOLDER, "b.pdf".data, "z".data⟩]⟩, []⟩ = .ok s2 := by
  exact claim_C9_isolation (Cfg.mk [] [] (fun _ => []) 1000000 2) SRC_FOLDER
    DEST_FOLDER (fun _ => { noFaults with renderFail := true })
    ⟨⟨[⟨SRC_FOLDER, "a.pdf".data, "x".data⟩,
      ⟨SRC_FOLDER, "b.pdf".data, "z".data⟩]⟩, []⟩ rfl
    (fun _ => ⟨rfl, rfl⟩)

/-- Claim C1: a file is renamed in place with the `double_` marker prefix
(uniquified if that name is taken) if and only if both (1) its content hash
has a recent ledger entry (seen within the 90-day window) and (2) another
file with the same filename (case-insensitively) and identical content hash
is simultaneously present in the same source directory; and in the concrete
two-duplicate scenario — two files with identical content whose names agree
case-insensitively, hash already marked seen — exactly one of them (the
first in listing order) is renamed, neither is deleted, and both are still
classified and moved to the destination folder. -/
theorem claim_C1_dup_policy (srcDir : DirPath) (name : Str) (h : Str)
    (now : Int) (fl : FileFaults) (s : Sys)
    (hseenF : fl.seenFail = false) (hsibF : fl.siblingFail = false)
    (hrenF : fl.renameFail = false) :
    let marker0 := "double_".data ++ name
    let markerName := if fexists s.fs srcDir marker0 then
        uniqueWithCounter (listDirFS s.fs srcDir) marker0
      else marker0
    (dbSeenRecently s.ledger h 90 now = true →
      ∀ m, findSameNameHash s.fs srcDir name h = some m →
        dupStep srcDir name (some h) now fl s =
          .ok (⟨renameFS s.fs srcDir name markerName, s.ledger⟩, markerName) ∧
        markerName ≠ name) ∧
    (dbSeenRecently s.ledger h 90 now = false →
      dupStep srcDir name (some h) now fl s = .ok (s, name)) ∧
    (findSameNameHash s.fs srcDir name h = none →
      dupStep srcDir name (some h) now fl s = .ok (s, name)) ∧
    (movePass (Cfg.mk [] [] (fun _ => []) 1000000 2) SRC_FOLDER DEST_FOLDER
        (fun _ => noFaults)
        ⟨⟨[⟨SRC_FOLDER, "Inv.pdf".data, "x".data⟩,
          ⟨SRC_FOLDER, "inv.pdf".data, "x".data⟩]⟩,
          [LEntry.mk "x".data (some 1) 500 999999 [] []]⟩ =
      .ok (Sys.mk (FS.mk
          [FEntry.mk (UNASSIGNED_PLAN_MANAGER_FOLDER ++ ["New Provider".data])
            "double_Inv.pdf".data "x".data,
           FEntry.mk (UNASSIGNED_PLAN_MANAGER_FOLDER ++ ["New Provider".data])
            "inv.pdf".data "x".data])
          [LEntry.mk "x".data (some 1) 500 1000000
            (UNASSIGNED_PLAN_MANAGER_FOLDER ++ ["New Provider".data])
            "inv.pdf".data]) ∧
      startsWithB "double_".data "double_Inv.pdf".data = true ∧
      startsWithB "double_".data "inv.pdf".data = false ∧
      toLowerStr "Inv.pdf".data = toLowerStr "inv.pdf".data ∧
      dbSeenRecently [LEntry.mk "x".data (some 1) 500 999999 [] []]
        (fileHash "x".data) 90 1000000 = true) := by
  intro marker0 markerName
  have hmarklen : name.length < markerName.length := by
    show name.length < (if fexists s.fs srcDir marker0 then
        uniqueWithCounter (listDirFS s.fs srcDir) marker0
      else marker0).length
    have hm0 : marker0.length = 7 + name.length := by
      show ("double_".data ++ name).length = 7 + name.length
      simp
      omega
    split
    · have := uniqueWithCounter_length_ge (listDirFS s.fs srcDir) marker0
      omega
    · omega
  refine ⟨?_, ?_, ?_, rfl, rfl, rfl, rfl, rfl⟩
  · intro hseen m hm
    constructor
    · unfold dupStep
      simp only [hseenF, Bool.false_eq_true, if_false]
      rw [if_pos hseen]
      simp only [hsibF, Bool.false_eq_true, if_false]
      rw [hm]
      simp only [hrenF, Bool.false_eq_true, if_false]
    · intro hc
      rw [hc] at hmarklen
      omega
  · intro hns
    exact dupStep_not_seen srcDir name h now fl s hseenF hns
  · intro hnone
    unfold dupStep
    simp only [hseenF, Bool.false_eq_true, if_false]
    by_cases hseen : dbSeenRecently s.ledger h 90 now = true
    · rw [if_pos hseen]
      simp only [hsibF, Bool.false_eq_true, if_false, hnone]
    · rw [Bool.not_eq_true] at hseen
      rw [hseen]
      simp only [Bool.false_eq_true, if_false]

theorem claim_C1_witness :
    let s : Sys := ⟨⟨[⟨SRC_FOLDER, "Inv.pdf".data, "x".data⟩,
      ⟨SRC_FOLDER, "inv.pdf".data, "x".data⟩]⟩,
      [LEntry.mk "x".data (some 1) 500 999999 [] []]⟩
    dupStep SRC_FOLDER "Inv.pdf".data (some "x".data) 1000000 noFaults s =
      .ok (⟨renameFS s.fs SRC_FOLDER "Inv.pdf".data "double_Inv.pdf".data,
        s.ledger⟩, "double_Inv.pdf".data) ∧
    "double_Inv.pdf".data ≠ "Inv.pdf".data := by
  intro s
  exact (claim_C1_dup_policy SRC_FOLDER "Inv.pdf".data "x".data 1000000
    noFaults s rfl rfl rfl).1 rfl "inv.pdf".data rfl
